import Mathlib

/-!
Verification development for the discoverx Delta housekeeping core
(`src/discoverx/delta_housekeeping.py`).

The embedding models pandas DataFrames as lists of typed rows.  A nullable
DataFrame cell is an `Option`; a column that is absent from a frame is
modelled by the corresponding `Option` field being `none` on every row
(pandas column presence is a frame-level property; the engine only ever
tests presence of the three recommendation flag columns, which is the
`hasCol` predicate below).  Timestamps are integers (seconds since epoch);
the pandas `.dt.days` accessor on a timedelta is floor division by 86400
seconds, which is `Int.fdiv` here, matching Python's floor semantics.
-/

/-- Model of `discoverx.table_info.TableInfo` (that module is not under
`src/`); only the three identity fields are consumed by
`DeltaHousekeeping.scan`.  The `catalog` field is nullable, as witnessed by
the `table_info.catalog or ""` guard on the error path of `scan`. -/
structure TableInfo where
  catalog : Option String
  schema : String
  table : String
deriving DecidableEq, Repr

/-- One row of the `DESCRIBE DETAIL` frame produced by
`get_describe_detail` (lines 114-132): identity plus `numFiles` aliased to
`number_of_files` and `sizeInBytes` aliased to `bytes`. -/
structure DetailRow where
  catalog : String
  database : String
  tableName : String
  number_of_files : Int
  bytes : Int
deriving DecidableEq, Repr

/-- One row of the history frame produced by
`get_describe_history_statement` (lines 134-149): identity, operation,
timestamp, the three file-size metrics and the z-order clause. -/
structure HistoryEvent where
  catalog : String
  database : String
  tableName : String
  operation : String
  timestamp : Int
  min_file_size : Option Int
  p50_file_size : Option Int
  max_file_size : Option Int
  z_order_by : Option String
deriving DecidableEq, Repr

/-- A row of the scanner output / recommendation-engine stats frame.  The
field `snd_optimize_timestamp` models the source column
`2nd_optimize_timestamp` (a Lean identifier cannot start with a digit), and
likewise `snd_vacuum_timestamp` models `2nd_vacuum_timestamp`.  All
non-identity fields are nullable: error rows populate only `error`, and
rows for tables with no relevant history events have all history fields
null.  The three `rec_*` flag/reason column pairs start absent (`none` on
every row) and are created by the recommendation engine. -/
structure StatsRow where
  catalog : String
  database : String
  tableName : String
  number_of_files : Option Int := none
  bytes : Option Int := none
  max_optimize_timestamp : Option Int := none
  snd_optimize_timestamp : Option Int := none
  max_vacuum_timestamp : Option Int := none
  snd_vacuum_timestamp : Option Int := none
  min_file_size : Option Int := none
  p50_file_size : Option Int := none
  max_file_size : Option Int := none
  z_order_by : Option String := none
  error : Option String := none
  rec_optimize : Option Bool := none
  rec_optimize_reason : Option String := none
  rec_vacuum : Option Bool := none
  rec_vacuum_reason : Option String := none
  rec_misc : Option Bool := none
  rec_misc_reason : Option String := none
deriving DecidableEq, Repr

/-- The three-column merge key `["catalog", "database", "tableName"]` used
by every join in the source. -/
structure TableKey where
  catalog : String
  database : String
  tableName : String
deriving DecidableEq, Repr

def keyOf (r : StatsRow) : TableKey := ⟨r.catalog, r.database, r.tableName⟩

def eventKey (e : HistoryEvent) : TableKey := ⟨e.catalog, e.database, e.tableName⟩

def detailKey (d : DetailRow) : TableKey := ⟨d.catalog, d.database, d.tableName⟩

/-- Filter of line 44: `operation.isin(["OPTIMIZE", "VACUUM END"])`. -/
def relevantOperation (e : HistoryEvent) : Bool :=
  e.operation == "OPTIMIZE" || e.operation == "VACUUM END"

/-- Partition key of the window at line 46:
`Window.partitionBy(["catalog", "database", "tableName", "operation"])`. -/
def samePart (a b : HistoryEvent) : Bool :=
  a.catalog == b.catalog && a.database == b.database &&
    a.tableName == b.tableName && a.operation == b.operation

/-- Strict ordering used to model `orderBy(timestamp.desc)` row numbering:
`p` comes strictly before `q` when its timestamp is larger, ties broken by
original position (Spark's tie order is arbitrary; the model fixes the
stable one). -/
def precedes (p q : Nat × HistoryEvent) : Bool :=
  decide (q.2.timestamp < p.2.timestamp) ||
    (p.2.timestamp == q.2.timestamp && decide (p.1 < q.1))

/-- `F.row_number()` of entry `q` within its partition of the indexed
filtered history `fe`: one plus the number of partition members strictly
before it. -/
def rowNumberOf (fe : List (Nat × HistoryEvent)) (q : Nat × HistoryEvent) : Nat :=
  1 + (fe.filter (fun p => samePart p.2 q.2 && precedes p q)).length

/-- Lines 41-48: the filtered history with its `operation_order` column (a
`row_number` over (catalog, database, tableName, operation) partitions
ordered by timestamp descending). -/
def operation_order (history : List HistoryEvent) : List (HistoryEvent × Nat) :=
  let fe := (history.filter relevantOperation).enum
  fe.map (fun q => (q.2, rowNumberOf fe q))

/-- The sub-frame `operation_order[(operation == op) & (operation_order ==
rank)]` used at lines 56-91 to populate the max/2nd timestamp columns and
the rank-1 OPTIMIZE metrics. -/
def rankedRows (history : List HistoryEvent) (op : String) (rank : Nat) : List HistoryEvent :=
  ((operation_order history).filter (fun p => p.1.operation == op && p.2 == rank)).map (·.1)

/-- Lifting a `DESCRIBE DETAIL` row into the output schema: only the
identity and detail statistics populated. -/
def toStatsRow (d : DetailRow) : StatsRow :=
  { catalog := d.catalog, database := d.database, tableName := d.tableName,
    number_of_files := some d.number_of_files, bytes := some d.bytes }

/-- An all-null row carrying only the merge key, for right-only rows of an
outer merge. -/
def blankRow (k : TableKey) : StatsRow :=
  { catalog := k.catalog, database := k.database, tableName := k.tableName }

/-- One step `out.merge(events[...], how="outer", on=key)` of the merge
chain at lines 56-91.  A left row is paired with every matching event
(`upd` writes the merged-in columns), a left row without a match is kept
with the new columns null, and a right-only event contributes a row that is
null except for the key and the merged-in columns. -/
def mergeEvents (rows : List StatsRow) (events : List HistoryEvent)
    (upd : StatsRow → HistoryEvent → StatsRow) : List StatsRow :=
  (rows.flatMap (fun r =>
    match events.filter (fun e => eventKey e == keyOf r) with
    | [] => [r]
    | es => es.map (upd r))) ++
  ((events.filter (fun e => rows.all (fun r => !(eventKey e == keyOf r)))).map
    (fun e => upd (blankRow (eventKey e)) e))

/-- `DeltaHousekeeping._process_describe_history` (lines 23-93).  The guard
of line 38 (history frame lacking an `operation` column altogether) is a
schema-level test with no counterpart in a typed embedding: the history
argument here is always a list of full `HistoryEvent`s, which is what the
`SELECT` of `get_describe_history_statement` produces.  The line 50 guard
(`operation_order.isEmpty()`) and the five outer merges are modelled
verbatim. -/
def process_describe_history (detail : List DetailRow) (history : List HistoryEvent) :
    List StatsRow :=
  let oo := operation_order history
  if oo.isEmpty then detail.map toStatsRow
  else
    let out := detail.map toStatsRow
    let out := mergeEvents out (rankedRows history "OPTIMIZE" 1)
      (fun r e => { r with max_optimize_timestamp := some e.timestamp })
    let out := mergeEvents out (rankedRows history "OPTIMIZE" 2)
      (fun r e => { r with snd_optimize_timestamp := some e.timestamp })
    let out := mergeEvents out (rankedRows history "VACUUM END" 1)
      (fun r e => { r with max_vacuum_timestamp := some e.timestamp })
    let out := mergeEvents out (rankedRows history "VACUUM END" 2)
      (fun r e => { r with snd_vacuum_timestamp := some e.timestamp })
    let out := mergeEvents out (rankedRows history "OPTIMIZE" 1)
      (fun r e => { r with min_file_size := e.min_file_size,
                           p50_file_size := e.p50_file_size,
                           max_file_size := e.max_file_size,
                           z_order_by := e.z_order_by })
    out

/-- The body of the `try` block of `DeltaHousekeeping.scan` (lines
160-170): the detail fetch, then the history fetch, then the summary fold,
all inside one failure boundary.  The two fetches are opaque remote calls
modelled by their `Except` results. -/
def scan_attempt (detail : Except String (List DetailRow))
    (history : Except String (List HistoryEvent)) : Except String (List StatsRow) := do
  let dd ← detail
  let h ← history
  pure (process_describe_history dd h)

/-- The error record built at lines 172-177:
`[(table_info.catalog or "", table_info.schema, table_info.table, str(e))]`
with columns `["catalog", "database", "tableName", "error"]`. -/
def errorRecord (ti : TableInfo) (msg : String) : StatsRow :=
  { catalog := ti.catalog.getD "", database := ti.schema, tableName := ti.table,
    error := some msg }

/-- `DeltaHousekeeping.scan` (lines 151-177). -/
def scan (ti : TableInfo) (detail : Except String (List DetailRow))
    (history : Except String (List HistoryEvent)) : List StatsRow :=
  match scan_attempt detail history with
  | .ok out => out
  | .error e => [errorRecord ti e]

/-! ## Recommendation engine (`DeltaHousekeepingActions`) -/

/-- Number of seconds in a day; `.dt.days` of a timedelta is floor division
by this. -/
def secondsPerDay : Int := 86400

/-- The legend strings set in `DeltaHousekeepingActions.__init__` (lines
217-225).  Apostrophes are written with the `\x27` escape. -/
def tables_not_optimized_legend : String :=
  "The table has not been OPTIMIZED and would benefit from it"

def tables_not_vacuumed_legend : String := "The table has never been VACUUM\x27ed"

def tables_not_optimized_last_days : String := "Tables that are not OPTIMIZED often enough"

def tables_not_vacuumed_last_days : String := "Tables that are not VACUUM\x27ed often enough"

def tables_optimized_too_freq : String := "Tables that are OPTIMIZED too often"

def tables_vacuumed_too_freq : String := "Tables that are VACUUM\x27ed too often"

def tables_do_not_need_optimize : String := "Tables that are too small to be OPTIMIZED"

def tables_to_analyze : String := "Tables that need more analysis -small_files"

def tables_zorder_not_effective : String := "Tables for which ZORDER is not being effective"

/-- Threshold configuration of `DeltaHousekeepingActions.__init__` (lines
192-198), with the defaults of the source, plus the evaluation instant
`now` (the source calls `datetime.now(timezone.utc)` inside the rule
helpers). -/
structure HousekeepingParams where
  min_table_size_optimize : Int := 128 * 1024 * 1024
  min_days_not_optimized : Int := 7
  min_days_not_vacuumed : Int := 31
  max_optimize_freq : Int := 2
  max_vacuum_freq : Int := 2
  small_file_threshold : Int := 32 * 1024 * 1024
  min_number_of_files_for_zorder : Int := 8
  now : Int := 0
deriving Repr

/-- The three flag/reason column pairs targeted by the rules. -/
inductive FlagCol
  | optimize
  | vacuum
  | misc
deriving DecidableEq, Repr

def FlagCol.flag : FlagCol → StatsRow → Option Bool
  | .optimize, r => r.rec_optimize
  | .vacuum, r => r.rec_vacuum
  | .misc, r => r.rec_misc

def FlagCol.reason : FlagCol → StatsRow → Option String
  | .optimize, r => r.rec_optimize_reason
  | .vacuum, r => r.rec_vacuum_reason
  | .misc, r => r.rec_misc_reason

/-- Writing a flag/reason pair into a row; every other column is untouched. -/
def FlagCol.set : FlagCol → StatsRow → Bool → String → StatsRow
  | .optimize, r, b, s => { r with rec_optimize := some b, rec_optimize_reason := some s }
  | .vacuum, r, b, s => { r with rec_vacuum := some b, rec_vacuum_reason := some s }
  | .misc, r, b, s => { r with rec_misc := some b, rec_misc_reason := some s }

/-- The line 238 test `boolean_column_name in self._stats.columns`: in
pandas a present column has a (possibly null) value in every row, and a
frame never holds a flag column that is null everywhere (each application
ends with a `fillna` on it), so presence is `isSome` somewhere. -/
def hasCol (t : FlagCol) (stats : List StatsRow) : Bool :=
  stats.any (fun r => (t.flag r).isSome)

/-- One entry of `stats_sub` inside `_apply_changes_to_stats`: the source
row together with the freshly initialised new flag column (`False`) and new
reason column (`None`). -/
abbrev SubEntry := StatsRow × Bool × Option String

/-- The per-row tail of `_apply_changes_to_stats` (lines 248-261): take the
merged-in new flag/reason of this row (`none` when the outer merge found no
match), apply the line 254/256 `fillna`, and either write the new columns
under the target names (column did not exist yet) or compose with the prior
verdict: logical OR on the flag, unconditional `" | "` join on the reason
(line 260, the `TODO should figure out if either side is None` line). -/
def composeRow (t : FlagCol) (present : Bool) (r : StatsRow)
    (m : Option (Bool × Option String)) : StatsRow :=
  let nf := (m.map (·.1)).getD false
  let nr := (m.bind (·.2)).getD ""
  if present then
    t.set r (((t.flag r).getD false) || nf) ((((t.reason r).getD "") ++ " | ") ++ nr)
  else
    t.set r nf nr

/-- The projection `stats_sub.loc[:, [keys, bool_new, reason_new]]` (line
250) of the frame returned by `f_apply_legend` on the condition subset. -/
def subResults (stats : List StatsRow) (condition : StatsRow → Bool)
    (f_apply_legend : List SubEntry → List SubEntry) :
    List (TableKey × Bool × Option String) :=
  (f_apply_legend ((stats.filter condition).map (fun r => (r, false, (none : Option String))))).map
    (fun s => (keyOf s.1, s.2.1, s.2.2))

/-- `DeltaHousekeepingActions._apply_changes_to_stats` (lines 227-261): run
`f_apply_legend` on the condition subset, outer-merge its key + new
flag/reason columns back into the stats frame on the identity key (left
rows without a match get nulls; right-only keys contribute otherwise-null
rows), then `fillna`/compose per `composeRow`. -/
def apply_changes_to_stats (stats : List StatsRow) (condition : StatsRow → Bool)
    (t : FlagCol) (f_apply_legend : List SubEntry → List SubEntry) : List StatsRow :=
  let present := hasCol t stats
  let subKR := subResults stats condition f_apply_legend
  ((stats.flatMap (fun r =>
      match subKR.filter (fun s => s.1 == keyOf r) with
      | [] => [(r, (none : Option (Bool × Option String)))]
      | es => es.map (fun s => (r, some s.2)))) ++
    ((subKR.filter (fun s => stats.all (fun r => !(s.1 == keyOf r)))).map
      (fun s => (blankRow s.1, some s.2)))).map
    (fun p => composeRow t present p.1 p.2)

/-- Inner `check_min_table_size_apply_legend` of `_need_optimize` (lines
264-268): flag the sub-rows whose `bytes` exceeds the threshold.  The
condition guarding this rule guarantees `bytes` is non-null (the source
`astype(int)` would raise otherwise). -/
def need_optimize_apply_legend (min_table_size_optimize : Int)
    (sub : List SubEntry) : List SubEntry :=
  sub.map (fun e =>
    if (e.1.bytes.map (fun b => decide (min_table_size_optimize < b))).getD false
    then (e.1, true, some tables_not_optimized_legend) else e)

/-- Inner `check_min_table_size_apply_legend` of `_optimize_not_needed`
(lines 278-282): flag sub-rows with an OPTIMIZE timestamp and `bytes`
strictly below the threshold. -/
def optimize_not_needed_apply_legend (min_table_size_optimize : Int)
    (sub : List SubEntry) : List SubEntry :=
  sub.map (fun e =>
    if e.1.max_optimize_timestamp.isSome &&
        (e.1.bytes.map (fun b => decide (b < min_table_size_optimize))).getD false
    then (e.1, true, some tables_do_not_need_optimize) else e)

/-- `DeltaHousekeepingActions.check_timestamps_apply_legend` (lines
291-302): `lag = (now_utc - ts).dt.days`, flag when `lag > threshold`.
A null timestamp gives a NaN lag and the comparison is false (the guarding
conditions make the timestamp non-null anyway). -/
def check_timestamps_apply_legend (now threshold : Int) (reason : String)
    (timestamp_to_evaluate : StatsRow → Option Int) (sub : List SubEntry) : List SubEntry :=
  sub.map (fun e =>
    if ((timestamp_to_evaluate e.1).map
        (fun ts => decide (threshold < Int.fdiv (now - ts) secondsPerDay))).getD false
    then (e.1, true, some reason) else e)

/-- `DeltaHousekeepingActions.check_timestamp_diff_apply_legend` (lines
315-327): `lag = (ts1 - ts2).dt.days`, flag when `lag < threshold`; a null
on either side gives a NaN lag and a false comparison. -/
def check_timestamp_diff_apply_legend (threshold : Int) (reason : String)
    (timestamp1_to_evaluate timestamp2_to_evaluate : StatsRow → Option Int)
    (sub : List SubEntry) : List SubEntry :=
  sub.map (fun e =>
    match timestamp1_to_evaluate e.1, timestamp2_to_evaluate e.1 with
    | some t1, some t2 =>
        if Int.fdiv (t1 - t2) secondsPerDay < threshold
        then (e.1, true, some reason) else e
    | _, _ => e)

/-- Inner `apply_legend` of `_never_vacuumed` (lines 342-345): flag every
sub-row. -/
def never_vacuumed_apply_legend (sub : List SubEntry) : List SubEntry :=
  sub.map (fun e => (e.1, true, some tables_not_vacuumed_legend))

/-- Inner `check_analyze_tables_apply_legend` of `_analyze_these_tables`
(lines 386-390): flag sub-rows whose median file size is below the small
file threshold. -/
def analyze_tables_apply_legend (small_file_threshold : Int)
    (sub : List SubEntry) : List SubEntry :=
  sub.map (fun e =>
    if (e.1.p50_file_size.map (fun s => decide (s < small_file_threshold))).getD false
    then (e.1, true, some tables_to_analyze) else e)

/-- Line 402: `None if x == "[]" else x.replace('[', '').replace(']',
'').replace('"', '')`.  On a null cell the source lambda raises
(`AttributeError` on float NaN) - never reached from scanner output, where
`z_order_by` and `p50_file_size` come from the same rank-1 OPTIMIZE event;
the model keeps the null. -/
def zorder_clean (x : Option String) : Option String :=
  match x with
  | some s => if s == "[]" then none
              else some (((s.replace "[" "").replace "]" "").replace "\x22" "")
  | none => none

/-- Line 403: `.str.split(',')`; a null cell stays null, which the length
filter of line 405 then drops. -/
def zorder_array (x : Option String) : List String :=
  match zorder_clean x with
  | some s => s.splitOn ","
  | none => []

/-- Inner `check_zorder_not_effective_apply_legend` of
`_zorder_not_effective` (lines 400-410): keep sub-rows with a non-empty
z-order clause and fewer files than the z-order threshold, and flag all of
them. -/
def zorder_not_effective_apply_legend (min_number_of_files_for_zorder : Int)
    (sub : List SubEntry) : List SubEntry :=
  (((sub.filter (fun e => decide (0 < (zorder_array e.1.z_order_by).length))).filter
      (fun e => (e.1.number_of_files.map
        (fun n => decide (n < min_number_of_files_for_zorder))).getD false)).map
    (fun e => (e.1, true, some tables_zorder_not_effective)))

/-- `DeltaHousekeepingActions._need_optimize` (lines 263-275). -/
def need_optimize (p : HousekeepingParams) (stats : List StatsRow) : List StatsRow :=
  apply_changes_to_stats stats
    (fun r => r.max_optimize_timestamp.isNone && r.bytes.isSome)
    .optimize (need_optimize_apply_legend p.min_table_size_optimize)

/-- `DeltaHousekeepingActions._optimize_not_needed` (lines 277-289). -/
def optimize_not_needed (p : HousekeepingParams) (stats : List StatsRow) : List StatsRow :=
  apply_changes_to_stats stats
    (fun r => r.max_optimize_timestamp.isSome && r.bytes.isSome)
    .optimize (optimize_not_needed_apply_legend p.min_table_size_optimize)

/-- `DeltaHousekeepingActions._not_optimized_last_days` (lines 304-313). -/
def not_optimized_last_days (p : HousekeepingParams) (stats : List StatsRow) : List StatsRow :=
  apply_changes_to_stats stats
    (fun r => !r.max_optimize_timestamp.isNone)
    .optimize (check_timestamps_apply_legend p.now p.min_days_not_optimized
      tables_not_optimized_last_days (fun r => r.max_optimize_timestamp))

/-- `DeltaHousekeepingActions._optimized_too_frequently` (lines 329-339). -/
def optimized_too_frequently (p : HousekeepingParams) (stats : List StatsRow) : List StatsRow :=
  apply_changes_to_stats stats
    (fun r => r.max_optimize_timestamp.isSome && r.snd_optimize_timestamp.isSome)
    .optimize (check_timestamp_diff_apply_legend p.max_optimize_freq
      tables_optimized_too_freq (fun r => r.max_optimize_timestamp)
      (fun r => r.snd_optimize_timestamp))

/-- `DeltaHousekeepingActions._never_vacuumed` (lines 341-352). -/
def never_vacuumed (_p : HousekeepingParams) (stats : List StatsRow) : List StatsRow :=
  apply_changes_to_stats stats
    (fun r => r.max_vacuum_timestamp.isNone)
    .vacuum never_vacuumed_apply_legend

/-- `DeltaHousekeepingActions._not_vacuumed_last_days` (lines 354-371); the
frame it builds and returns after the rule application is discarded by
`generate_recommendations`, so only the stats update is modelled. -/
def not_vacuumed_last_days (p : HousekeepingParams) (stats : List StatsRow) : List StatsRow :=
  apply_changes_to_stats stats
    (fun r => !r.max_vacuum_timestamp.isNone)
    .vacuum (check_timestamps_apply_legend p.now p.min_days_not_vacuumed
      tables_not_vacuumed_last_days (fun r => r.max_vacuum_timestamp))

/-- `DeltaHousekeepingActions._vacuumed_too_frequently` (lines 373-383). -/
def vacuumed_too_frequently (p : HousekeepingParams) (stats : List StatsRow) : List StatsRow :=
  apply_changes_to_stats stats
    (fun r => r.max_vacuum_timestamp.isSome && r.snd_vacuum_timestamp.isSome)
    .vacuum (check_timestamp_diff_apply_legend p.max_vacuum_freq
      tables_vacuumed_too_freq (fun r => r.max_vacuum_timestamp)
      (fun r => r.snd_vacuum_timestamp))

/-- `DeltaHousekeepingActions._analyze_these_tables` (lines 385-397). -/
def analyze_these_tables (p : HousekeepingParams) (stats : List StatsRow) : List StatsRow :=
  apply_changes_to_stats stats
    (fun r => r.max_optimize_timestamp.isSome && r.p50_file_size.isSome &&
      (r.number_of_files.map (fun n => decide (1 < n))).getD false)
    .misc (analyze_tables_apply_legend p.small_file_threshold)

/-- `DeltaHousekeepingActions._zorder_not_effective` (lines 399-417). -/
def zorder_not_effective (p : HousekeepingParams) (stats : List StatsRow) : List StatsRow :=
  apply_changes_to_stats stats
    (fun r => r.max_optimize_timestamp.isSome && r.p50_file_size.isSome)
    .misc (zorder_not_effective_apply_legend p.min_number_of_files_for_zorder)

/-- The rule applied in position `n` of the fixed order of
`generate_recommendations` (lines 438-446); positions past the ninth leave
the frame unchanged. -/
def ruleAt (p : HousekeepingParams) : Nat → (List StatsRow → List StatsRow)
  | 0 => need_optimize p
  | 1 => never_vacuumed p
  | 2 => not_optimized_last_days p
  | 3 => not_vacuumed_last_days p
  | 4 => optimized_too_frequently p
  | 5 => vacuumed_too_frequently p
  | 6 => optimize_not_needed p
  | 7 => analyze_these_tables p
  | 8 => zorder_not_effective p
  | _ => id

/-- The stats frame after the first `n` rule applications of one
`generate_recommendations` run. -/
def stage (p : HousekeepingParams) (stats : List StatsRow) : Nat → List StatsRow
  | 0 => stats
  | n + 1 => ruleAt p n (stage p stats n)

/-- `DeltaHousekeepingActions.generate_recommendations` (lines 431-447):
the nine rules in their fixed order. -/
def generate_recommendations (p : HousekeepingParams) (stats : List StatsRow) :
    List StatsRow :=
  stage p stats 9

/-- Row lookup by identity key (the stats frames under consideration have
unique keys, the invariant of the spec). -/
def lookupRow (k : TableKey) (stats : List StatsRow) : Option StatsRow :=
  stats.find? (fun r => keyOf r == k)

/-- Substring containment, used to state "the reason contains the legend". -/
def containsStr (s sub : String) : Prop := ∃ a b : String, s = a ++ sub ++ b


/-- The net per-row effect of one rule application: when the flag column is
already `present` the prior verdict is composed (OR on the flag,
unconditional `" | "` join on the reason), otherwise the columns are
created afresh; `fired` tells whether this rule selected the row. -/
def canonicalRow (t : FlagCol) (present : Bool) (legend : String) (fired : Bool)
    (r : StatsRow) : StatsRow :=
  if present then
    t.set r (((t.flag r).getD false) || fired)
      ((((t.reason r).getD "") ++ " | ") ++ (if fired then legend else ""))
  else
    t.set r fired (if fired then legend else "")

/-- A row stripped of its six flag/reason columns: two rows with equal
`coreOf` agree on every column other than the recommendation columns. -/
def coreOf (r : StatsRow) : StatsRow :=
  { r with rec_optimize := none, rec_optimize_reason := none,
           rec_vacuum := none, rec_vacuum_reason := none,
           rec_misc := none, rec_misc_reason := none }

/-! Per-rule `fired` predicates: the condition of the rule conjoined with
the firing test of its `apply_legend` body, exactly as the source applies
them. -/

def firedNeedOptimize (p : HousekeepingParams) (r : StatsRow) : Bool :=
  (r.max_optimize_timestamp.isNone && r.bytes.isSome) &&
    (r.bytes.map (fun b => decide (p.min_table_size_optimize < b))).getD false

def firedNeverVacuumed (r : StatsRow) : Bool := r.max_vacuum_timestamp.isNone

def firedNotOptimizedLastDays (p : HousekeepingParams) (r : StatsRow) : Bool :=
  (!r.max_optimize_timestamp.isNone) &&
    (r.max_optimize_timestamp.map
      (fun ts => decide (p.min_days_not_optimized < Int.fdiv (p.now - ts) secondsPerDay))).getD false

def firedNotVacuumedLastDays (p : HousekeepingParams) (r : StatsRow) : Bool :=
  (!r.max_vacuum_timestamp.isNone) &&
    (r.max_vacuum_timestamp.map
      (fun ts => decide (p.min_days_not_vacuumed < Int.fdiv (p.now - ts) secondsPerDay))).getD false

def firedOptimizedTooFrequently (p : HousekeepingParams) (r : StatsRow) : Bool :=
  (r.max_optimize_timestamp.isSome && r.snd_optimize_timestamp.isSome) &&
    (match r.max_optimize_timestamp, r.snd_optimize_timestamp with
     | some t1, some t2 => decide (Int.fdiv (t1 - t2) secondsPerDay < p.max_optimize_freq)
     | _, _ => false)

def firedVacuumedTooFrequently (p : HousekeepingParams) (r : StatsRow) : Bool :=
  (r.max_vacuum_timestamp.isSome && r.snd_vacuum_timestamp.isSome) &&
    (match r.max_vacuum_timestamp, r.snd_vacuum_timestamp with
     | some t1, some t2 => decide (Int.fdiv (t1 - t2) secondsPerDay < p.max_vacuum_freq)
     | _, _ => false)

def firedOptimizeNotNeeded (p : HousekeepingParams) (r : StatsRow) : Bool :=
  (r.max_optimize_timestamp.isSome && r.bytes.isSome) &&
    (r.max_optimize_timestamp.isSome &&
      (r.bytes.map (fun b => decide (b < p.min_table_size_optimize))).getD false)

def firedAnalyzeTables (p : HousekeepingParams) (r : StatsRow) : Bool :=
  (r.max_optimize_timestamp.isSome && r.p50_file_size.isSome &&
      (r.number_of_files.map (fun n => decide (1 < n))).getD false) &&
    (r.p50_file_size.map (fun s => decide (s < p.small_file_threshold))).getD false

def firedZorderNotEffective (p : HousekeepingParams) (r : StatsRow) : Bool :=
  (((r.number_of_files.map
      (fun n => decide (n < p.min_number_of_files_for_zorder))).getD false) &&
    (decide (0 < (zorder_array r.z_order_by).length))) &&
    (r.max_optimize_timestamp.isSome && r.p50_file_size.isSome)

/-- Every position of the pipeline is either past its end (identity) or a
canonical rule application targeting one flag column. -/
def RulePreserving (g : List StatsRow → List StatsRow) : Prop :=
  g = id ∨ ∃ (t : FlagCol) (L : String) (fired : StatsRow → Bool),
    ∀ stats : List StatsRow, (stats.map keyOf).Nodup →
      g stats = stats.map (fun r => canonicalRow t (hasCol t stats) L (fired r) r)

/-- Modelled from the spec: "ranking is a dense rank over
(catalog,schema,table,operation) partitions" ordered by timestamp
descending - the dense rank of an event is one plus the number of distinct
strictly larger timestamps in its partition.  This is the reading claimed
by C6; the source itself uses `F.row_number()`. -/
def denseRankOf (filtered : List HistoryEvent) (e : HistoryEvent) : Nat :=
  1 + (((filtered.filter (fun f => samePart f e && decide (e.timestamp < f.timestamp))).map
    (fun f => f.timestamp)).dedup).length

/-- Modelled from the spec: the rows of the filtered history whose dense
rank within their partition is `rank`, restricted to operation `op` - what
the claimed reading would extract into the max/2nd timestamp columns. -/
def denseRankRows (history : List HistoryEvent) (op : String) (rank : Nat) :
    List HistoryEvent :=
  (history.filter relevantOperation).filter (fun e =>
    e.operation == op && denseRankOf (history.filter relevantOperation) e == rank)

/-- The row-number rank of an event value relative to the filtered history,
stated without the enumeration indices: one plus the number of partition
members with a strictly larger timestamp.  On histories without timestamp
ties inside a partition this agrees with both `rowNumberOf` and
`denseRankOf`. -/
def strictRank (filtered : List HistoryEvent) (e : HistoryEvent) : Nat :=
  1 + (filtered.filter (fun f => samePart f e && decide (e.timestamp < f.timestamp))).length

/-- A one-row stats frame for concrete evaluation: a large table with no
OPTIMIZE history (the spec scenario of claim C2). -/
def largeNeverOptimizedRow : StatsRow :=
  { catalog := "c", database := "d", tableName := "t", bytes := some (200 * 1024 * 1024) }

/-- A one-row stats frame for concrete evaluation: two OPTIMIZE runs two
and three days before `now = 1000000` (the spec scenario of claim C3). -/
def recentlyOptimizedTwiceRow : StatsRow :=
  { catalog := "c", database := "d", tableName := "t",
    max_optimize_timestamp := some (1000000 - 2 * 86400),
    snd_optimize_timestamp := some (1000000 - 3 * 86400) }

/-- A one-row stats frame whose `rec_optimize` columns already exist from
a prior rule (flag `true`, reason `"A"`) and whose `max_optimize_timestamp`
is set, so that the `_need_optimize` condition does not select it and the
re-application composes with an empty new reason. -/
def composedReasonRow : StatsRow :=
  { catalog := "c", database := "d", tableName := "t",
    max_optimize_timestamp := some 0,
    rec_optimize := some true, rec_optimize_reason := some "A" }

/-- Two OPTIMIZE events on the same table with equal timestamps - a
timestamp tie inside one ranking partition. -/
def tieEventA : HistoryEvent :=
  ⟨"c", "d", "t", "OPTIMIZE", 100, some 1, some 2, some 3, some "[]"⟩

def tieEventB : HistoryEvent := { tieEventA with min_file_size := some 9 }

/-! ## Generic list lemmas -/

theorem length_filter_mono {α : Type} {P Q : α → Bool} :
    ∀ (l : List α), (∀ x ∈ l, P x = true → Q x = true) →
    (l.filter P).length ≤ (l.filter Q).length := by
  intro l
  induction l with
  | nil => intro _; simp
  | cons a tl ih =>
    intro h
    have htl : (tl.filter P).length ≤ (tl.filter Q).length :=
      ih (fun x hx => h x (List.mem_cons_of_mem a hx))
    by_cases hPa : P a = true
    · have hQa : Q a = true := h a (List.mem_cons_self a tl) hPa
      simp [List.filter_cons, hPa, hQa]
      omega
    · have hPa' : P a = false := by simpa using hPa
      by_cases hQa : Q a = true
      · simp [List.filter_cons, hPa', hQa]
        omega
      · have hQa' : Q a = false := by simpa using hQa
        simp [List.filter_cons, hPa', hQa']
        omega

theorem length_filter_lt {α : Type} {P Q : α → Bool} :
    ∀ (l : List α), (∀ x ∈ l, P x = true → Q x = true) →
    ∀ x ∈ l, Q x = true → P x = false →
    (l.filter P).length < (l.filter Q).length := by
  intro l
  induction l with
  | nil => intro _ x hx; cases hx
  | cons a tl ih =>
    intro h x hx hQ hP
    have himp : ∀ y ∈ tl, P y = true → Q y = true :=
      fun y hy => h y (List.mem_cons_of_mem a hy)
    rcases List.mem_cons.mp hx with rfl | hx
    · simp [List.filter_cons, hP, hQ]
      have := length_filter_mono (P := P) (Q := Q) tl himp
      omega
    · have hlt := ih himp x hx hQ hP
      by_cases hPa : P a = true
      · have hQa : Q a = true := h a (List.mem_cons_self a tl) hPa
        simp [List.filter_cons, hPa, hQa]
        omega
      · have hPa' : P a = false := by simpa using hPa
        by_cases hQa : Q a = true
        · simp [List.filter_cons, hPa', hQa]
          omega
        · have hQa' : Q a = false := by simpa using hQa
          simp [List.filter_cons, hPa', hQa']
          omega

theorem length_filter_le_one {α : Type} {P : α → Bool} :
    ∀ (l : List α), l.Nodup → (∀ x ∈ l, ∀ y ∈ l, P x = true → P y = true → x = y) →
    (l.filter P).length ≤ 1 := by
  intro l
  induction l with
  | nil => intro _ _; simp
  | cons a tl ih =>
    intro hN huniq
    obtain ⟨ha, htl⟩ := List.nodup_cons.mp hN
    by_cases hPa : P a = true
    · have hnil : tl.filter P = [] := by
        rw [List.filter_eq_nil_iff]
        intro y hy hPy
        exact ha (huniq y (List.mem_cons_of_mem a hy) a (List.mem_cons_self a tl) hPy hPa ▸ hy)
      simp [List.filter_cons, hPa, hnil]
    · rw [List.filter_cons, if_neg hPa]
      exact ih htl (fun x hx y hy => huniq x (List.mem_cons_of_mem a hx) y (List.mem_cons_of_mem a hy))

theorem mem_enumFrom_facts {α : Type} :
    ∀ (l : List α) (n : Nat) (p : Nat × α), p ∈ List.enumFrom n l → n ≤ p.1 ∧ p.2 ∈ l := by
  intro l
  induction l with
  | nil => intro n p hp; cases hp
  | cons a tl ih =>
    intro n p hp
    rw [List.enumFrom_cons] at hp
    rcases List.mem_cons.mp hp with rfl | hp
    · exact ⟨Nat.le_refl n, List.mem_cons_self a tl⟩
    · obtain ⟨h1, h2⟩ := ih (n + 1) p hp
      exact ⟨Nat.le_trans (Nat.le_succ n) h1, List.mem_cons_of_mem a h2⟩

theorem enumFrom_nodup {α : Type} :
    ∀ (l : List α) (n : Nat), (List.enumFrom n l).Nodup := by
  intro l
  induction l with
  | nil => intro n; simp
  | cons a tl ih =>
    intro n
    rw [List.enumFrom_cons, List.nodup_cons]
    refine ⟨fun hmem => ?_, ih (n + 1)⟩
    have := (mem_enumFrom_facts tl (n + 1) (n, a) hmem).1
    omega

theorem enumFrom_fst_inj {α : Type} :
    ∀ (l : List α) (n : Nat) (p q : Nat × α),
    p ∈ List.enumFrom n l → q ∈ List.enumFrom n l → p.1 = q.1 → p = q := by
  intro l
  induction l with
  | nil => intro n p q hp; cases hp
  | cons a tl ih =>
    intro n p q hp hq hfst
    rw [List.enumFrom_cons] at hp hq
    rcases List.mem_cons.mp hp with rfl | hp <;> rcases List.mem_cons.mp hq with rfl | hq
    · rfl
    · have := (mem_enumFrom_facts tl (n + 1) q hq).1; omega
    · have := (mem_enumFrom_facts tl (n + 1) p hp).1
      rw [hfst] at this; omega
    · exact ih (n + 1) p q hp hq hfst

theorem enumFrom_snd_inj {α : Type} :
    ∀ (l : List α), l.Nodup → ∀ (n : Nat) (p q : Nat × α),
    p ∈ List.enumFrom n l → q ∈ List.enumFrom n l → p.2 = q.2 → p = q := by
  intro l
  induction l with
  | nil => intro _ n p q hp; cases hp
  | cons a tl ih =>
    intro hN n p q hp hq hsnd
    obtain ⟨ha, htl⟩ := List.nodup_cons.mp hN
    rw [List.enumFrom_cons] at hp hq
    rcases List.mem_cons.mp hp with rfl | hp <;> rcases List.mem_cons.mp hq with rfl | hq
    · rfl
    · exact absurd ((mem_enumFrom_facts tl (n + 1) q hq).2) (by rw [← hsnd] at *; exact ha)
    · exact absurd ((mem_enumFrom_facts tl (n + 1) p hp).2) (by rw [hsnd] at *; exact ha)
    · exact ih htl (n + 1) p q hp hq hsnd

theorem enumFrom_filter_map_snd {α : Type} (P : α → Bool) :
    ∀ (l : List α) (n : Nat),
    ((List.enumFrom n l).filter (fun q => P q.2)).map (·.2) = l.filter P := by
  intro l
  induction l with
  | nil => intro n; rfl
  | cons a tl ih =>
    intro n
    rw [List.enumFrom_cons]
    by_cases hPa : P a = true
    · simp only [List.filter_cons, hPa, if_pos trivial, List.map_cons]
      rw [ih (n + 1)]
    · rw [List.filter_cons, if_neg hPa, List.filter_cons, if_neg hPa]
      exact ih (n + 1)

theorem filter_of_map {α β : Type} (f : α → β) (p : β → Bool) :
    ∀ (l : List α), (l.map f).filter p = (l.filter (fun x => p (f x))).map f := by
  intro l
  induction l with
  | nil => rfl
  | cons a tl ih =>
    by_cases hp : p (f a) = true
    · simp only [List.map_cons, List.filter_cons, hp, if_pos trivial]
      rw [ih]
    · rw [List.map_cons, List.filter_cons, if_neg hp, List.filter_cons, if_neg hp]
      exact ih

theorem flatMap_eq_map_of_singleton {α β : Type} (g : α → List β) (h : α → β) :
    ∀ (l : List α), (∀ x ∈ l, g x = [h x]) → l.flatMap g = l.map h := by
  intro l
  induction l with
  | nil => intro _; rfl
  | cons a tl ih =>
    intro hx
    rw [List.flatMap_cons, hx a (List.mem_cons_self a tl),
      ih (fun x hxm => hx x (List.mem_cons_of_mem a hxm)), List.map_cons]
    rfl

theorem filter_key_eq_find_toList {α β : Type} [DecidableEq β] (f : α → β) :
    ∀ (l : List α), (l.map f).Nodup → ∀ (k : β),
    l.filter (fun x => f x == k) = (l.find? (fun x => f x == k)).toList := by
  intro l
  induction l with
  | nil => intro _ k; rfl
  | cons a tl ih =>
    intro hN k
    rw [List.map_cons, List.nodup_cons] at hN
    obtain ⟨ha, htl⟩ := hN
    by_cases hk : f a = k
    · have hbeq : (f a == k) = true := beq_iff_eq.mpr hk
      have hnil : tl.filter (fun x => f x == k) = [] := by
        rw [List.filter_eq_nil_iff]
        intro y hy hPy
        exact ha (by rw [hk, ← beq_iff_eq.mp hPy]; exact List.mem_map.mpr ⟨y, hy, rfl⟩)
      rw [List.filter_cons, if_pos hbeq, hnil, List.find?_cons, hbeq]
      rfl
    · have hbeq : (f a == k) = false := by
        simpa using fun h => hk (beq_iff_eq.mp (by simpa using h))
      simp only [List.filter_cons, List.find?_cons, hbeq, Bool.false_eq_true, if_false]
      exact ih htl k

theorem find?_over_filter_map {α β γ : Type} [DecidableEq β] (f : α → β) (g : α → γ)
    (c : α → Bool) :
    ∀ (l : List α), (l.map f).Nodup → ∀ x ∈ l,
    ((l.filter c).map (fun y => (f y, g y))).find? (fun p => p.1 == f x) =
      if c x then some (f x, g x) else none := by
  intro l
  induction l with
  | nil => intro _ x hx; cases hx
  | cons a tl ih =>
    intro hN x hx
    rw [List.map_cons, List.nodup_cons] at hN
    obtain ⟨ha, htl⟩ := hN
    have hnotin : ∀ y ∈ tl, (f y == f a) = false := by
      intro y hy
      have : f y ≠ f a := fun h => ha (h ▸ List.mem_map.mpr ⟨y, hy, rfl⟩)
      simpa using fun heq => this (beq_iff_eq.mp (by simpa using heq))
    have hskip : ∀ (k' : β), (∀ y ∈ tl, (f y == k') = false) →
        ((tl.filter c).map (fun y => (f y, g y))).find? (fun p => p.1 == k') = none := by
      intro k' hall
      rw [List.find?_eq_none]
      intro p hp
      obtain ⟨y, hy, rfl⟩ := List.mem_map.mp hp
      have hy' := (List.mem_filter.mp hy).1
      simp [hall y hy']
    rcases List.mem_cons.mp hx with rfl | hx
    · by_cases hc : c x = true
      · rw [List.filter_cons, if_pos hc, List.map_cons, List.find?_cons]
        have : (f x == f x) = true := beq_iff_eq.mpr rfl
        rw [this, if_pos hc]
      · have hc' : c x = false := by simpa using hc
        rw [List.filter_cons, if_neg hc, if_neg hc]
        exact hskip (f x) hnotin
    · have hne : (f a == f x) = false := by
        have : f a ≠ f x := fun h => ha (h ▸ List.mem_map.mpr ⟨x, hx, rfl⟩)
        simpa using fun heq => this (beq_iff_eq.mp (by simpa using heq))
      by_cases hca : c a = true
      · rw [List.filter_cons, if_pos hca, List.map_cons, List.find?_cons, hne]
        exact ih htl x hx
      · rw [List.filter_cons, if_neg hca]
        exact ih htl x hx

theorem lookupRow_self (stats : List StatsRow) (hU : (stats.map keyOf).Nodup)
    (r : StatsRow) (hr : r ∈ stats) : lookupRow (keyOf r) stats = some r := by
  induction stats with
  | nil => cases hr
  | cons a tl ih =>
    rw [List.map_cons, List.nodup_cons] at hU
    obtain ⟨ha, htl⟩ := hU
    rcases List.mem_cons.mp hr with rfl | hr
    · rw [lookupRow, List.find?_cons, beq_iff_eq.mpr rfl]
    · have hne : (keyOf a == keyOf r) = false := by
        have : keyOf a ≠ keyOf r := fun h => ha (h ▸ List.mem_map.mpr ⟨r, hr, rfl⟩)
        simpa using fun h2 => this (beq_iff_eq.mp (by simpa using h2))
      rw [lookupRow] at ih ⊢
      rw [List.find?_cons, hne]
      exact ih htl hr

theorem lookupRow_map (k : TableKey) (stats : List StatsRow) (F : StatsRow → StatsRow)
    (hF : ∀ r, keyOf (F r) = keyOf r) :
    lookupRow k (stats.map F) = (lookupRow k stats).map F := by
  have hp : ((fun r => keyOf r == k) ∘ F) = (fun r => keyOf r == k) := by
    funext r
    simp [Function.comp, hF r]
  rw [lookupRow, List.find?_map, hp, lookupRow]

/-! ## Characterisation of a single rule application -/

theorem subResults_keys_sublist (stats : List StatsRow) (cond : StatsRow → Bool)
    (f : List SubEntry → List SubEntry)
    (hf : ∀ sub, ((f sub).map (fun e => keyOf e.1)).Sublist (sub.map (fun e => keyOf e.1))) :
    ((subResults stats cond f).map (fun s => s.1)).Sublist (stats.map keyOf) := by
  rw [subResults, List.map_map]
  have h1 := hf ((stats.filter cond).map (fun r => (r, false, (none : Option String))))
  rw [List.map_map] at h1
  have h2 : ((stats.filter cond).map keyOf).Sublist (stats.map keyOf) :=
    List.Sublist.map keyOf (List.filter_sublist stats)
  exact List.Sublist.trans h1 h2

theorem apply_changes_eq_map (stats : List StatsRow) (cond : StatsRow → Bool) (t : FlagCol)
    (f : List SubEntry → List SubEntry)
    (hU : (stats.map keyOf).Nodup)
    (hf : ∀ sub, ((f sub).map (fun e => keyOf e.1)).Sublist (sub.map (fun e => keyOf e.1))) :
    apply_changes_to_stats stats cond t f =
      stats.map (fun r => composeRow t (hasCol t stats) r
        (((subResults stats cond f).find? (fun s => s.1 == keyOf r)).map (fun s => s.2))) := by
  have hsub := subResults_keys_sublist stats cond f hf
  have hKR : ((subResults stats cond f).map (fun s => s.1)).Nodup := hU.sublist hsub
  have hro : (subResults stats cond f).filter
      (fun s => stats.all (fun r => !(s.1 == keyOf r))) = [] := by
    rw [List.filter_eq_nil_iff]
    intro s hs
    have hmem : s.1 ∈ stats.map keyOf :=
      hsub.subset (List.mem_map.mpr ⟨s, hs, rfl⟩)
    obtain ⟨r, hr, hkr⟩ := List.mem_map.mp hmem
    intro hall
    have h2 := List.all_eq_true.mp hall r hr
    rw [← hkr] at h2
    simp at h2
  have hmain : stats.flatMap (fun r =>
      match (subResults stats cond f).filter (fun s => s.1 == keyOf r) with
      | [] => [(r, (none : Option (Bool × Option String)))]
      | es => es.map (fun s => (r, some s.2))) =
    stats.map (fun r =>
      (r, ((subResults stats cond f).find? (fun s => s.1 == keyOf r)).map (fun s => s.2))) := by
    apply flatMap_eq_map_of_singleton
    intro r _
    have hfl := filter_key_eq_find_toList (fun s : TableKey × Bool × Option String => s.1)
      (subResults stats cond f) hKR (keyOf r)
    rw [hfl]
    cases hfind : (subResults stats cond f).find? (fun s => s.1 == keyOf r) with
    | none => rfl
    | some s => rfl
  rw [apply_changes_to_stats]
  rw [hmain, hro, List.map_nil, List.append_nil, List.map_map]
  rfl

theorem composeRow_none (t : FlagCol) (present : Bool) (r : StatsRow) (legend : String) :
    composeRow t present r none = canonicalRow t present legend false r := by
  simp [composeRow, canonicalRow]

theorem composeRow_some (t : FlagCol) (present : Bool) (r : StatsRow) (legend : String)
    (b : Bool) :
    composeRow t present r (some (b, if b then some legend else none)) =
      canonicalRow t present legend b r := by
  cases b <;> simp [composeRow, canonicalRow]

theorem apply_changes_map_shape (stats : List StatsRow) (cond : StatsRow → Bool) (t : FlagCol)
    (fire : StatsRow → Bool) (L : String) (f : List SubEntry → List SubEntry)
    (hU : (stats.map keyOf).Nodup)
    (hf : ∀ sub, ((f sub).map (fun e => keyOf e.1)).Sublist (sub.map (fun e => keyOf e.1)))
    (hsub : subResults stats cond f =
      (stats.filter cond).map (fun r => (keyOf r, fire r, if fire r then some L else none))) :
    apply_changes_to_stats stats cond t f =
      stats.map (fun r => canonicalRow t (hasCol t stats) L (cond r && fire r) r) := by
  rw [apply_changes_eq_map stats cond t f hU hf]
  apply List.map_congr_left
  intro r hr
  have hfind := find?_over_filter_map keyOf
    (fun y => ((fire y, if fire y then some L else none) : Bool × Option String)) cond stats hU r hr
  by_cases hc : cond r = true
  · rw [hsub, hfind, if_pos hc, hc, Bool.true_and]
    simp only [Option.map_some']
    exact composeRow_some t (hasCol t stats) r L (fire r)
  · have hc' : cond r = false := by simpa using hc
    rw [hsub, hfind, if_neg hc, hc', Bool.false_and]
    simp only [Option.map_none']
    exact composeRow_none t (hasCol t stats) r L

theorem apply_changes_filter_shape (stats : List StatsRow) (cond : StatsRow → Bool)
    (t : FlagCol) (D : StatsRow → Bool) (L : String) (f : List SubEntry → List SubEntry)
    (hU : (stats.map keyOf).Nodup)
    (hf : ∀ sub, ((f sub).map (fun e => keyOf e.1)).Sublist (sub.map (fun e => keyOf e.1)))
    (hsub : subResults stats cond f =
      (stats.filter D).map (fun r => (keyOf r, true, some L))) :
    apply_changes_to_stats stats cond t f =
      stats.map (fun r => canonicalRow t (hasCol t stats) L (D r) r) := by
  rw [apply_changes_eq_map stats cond t f hU hf]
  apply List.map_congr_left
  intro r hr
  have hfind := find?_over_filter_map keyOf
    (fun _ => ((true, some L) : Bool × Option String)) D stats hU r hr
  by_cases hc : D r = true
  · rw [hsub, hfind, if_pos hc, hc]
    simp only [Option.map_some']
    exact composeRow_some t (hasCol t stats) r L true
  · have hc' : D r = false := by simpa using hc
    rw [hsub, hfind, if_neg hc, hc']
    simp only [Option.map_none']
    exact composeRow_none t (hasCol t stats) r L

theorem map_keys_sublist (g : SubEntry → SubEntry) (hg : ∀ e, (g e).1 = e.1)
    (sub : List SubEntry) :
    ((sub.map g).map (fun e => keyOf e.1)).Sublist (sub.map (fun e => keyOf e.1)) := by
  rw [List.map_map]
  have h : ((fun e : SubEntry => keyOf e.1) ∘ g) = (fun e : SubEntry => keyOf e.1) := by
    funext e
    simp only [Function.comp_apply]
    rw [hg e]
  rw [h]

theorem subResults_if_shape (stats : List StatsRow) (cond : StatsRow → Bool)
    (fire : StatsRow → Bool) (L : String) :
    subResults stats cond (fun sub => sub.map (fun e =>
        if fire e.1 then (e.1, true, some L) else e)) =
      (stats.filter cond).map
        (fun r => (keyOf r, fire r, if fire r then some L else none)) := by
  rw [subResults, List.map_map, List.map_map]
  apply List.map_congr_left
  intro r _
  by_cases h : fire r = true
  · simp [Function.comp, h]
  · have h' : fire r = false := by simpa using h
    simp [Function.comp, h']

theorem subResults_diff_shape (stats : List StatsRow) (cond : StatsRow → Bool)
    (thr : Int) (L : String) (s1 s2 : StatsRow → Option Int) :
    subResults stats cond (check_timestamp_diff_apply_legend thr L s1 s2) =
      (stats.filter cond).map (fun r => (keyOf r,
        (match s1 r, s2 r with
         | some t1, some t2 => decide (Int.fdiv (t1 - t2) secondsPerDay < thr)
         | _, _ => false),
        if (match s1 r, s2 r with
            | some t1, some t2 => decide (Int.fdiv (t1 - t2) secondsPerDay < thr)
            | _, _ => false) = true then some L else none)) := by
  rw [subResults, check_timestamp_diff_apply_legend, List.map_map, List.map_map]
  apply List.map_congr_left
  intro r _
  rcases h1 : s1 r with _ | t1 <;> rcases h2 : s2 r with _ | t2 <;>
    simp only [Function.comp_apply, h1, h2]
  · rfl
  · rfl
  · rfl
  · by_cases hlt : Int.fdiv (t1 - t2) secondsPerDay < thr
    · simp [hlt]
    · simp [hlt]

theorem subResults_zorder_shape (stats : List StatsRow) (cond : StatsRow → Bool) (m : Int) :
    subResults stats cond (zorder_not_effective_apply_legend m) =
      (stats.filter (fun r =>
        (((r.number_of_files.map (fun n => decide (n < m))).getD false) &&
          (decide (0 < (zorder_array r.z_order_by).length))) && cond r)).map
        (fun r => (keyOf r, true, some tables_zorder_not_effective)) := by
  rw [subResults, zorder_not_effective_apply_legend]
  rw [filter_of_map (fun r => ((r, false, (none : Option String)) : SubEntry))
    (fun e => decide (0 < (zorder_array e.1.z_order_by).length)) (stats.filter cond)]
  rw [filter_of_map (fun r => ((r, false, (none : Option String)) : SubEntry))
    (fun e => (e.1.number_of_files.map (fun n => decide (n < m))).getD false)]
  rw [List.filter_filter, List.filter_filter, List.map_map, List.map_map]
  refine Eq.trans (congrArg _ (List.filter_congr (fun a _ => ?_))) (List.map_congr_left (fun a _ => ?_))
  · rfl
  · rfl

theorem zorder_keys_sublist (m : Int) (sub : List SubEntry) :
    ((zorder_not_effective_apply_legend m sub).map (fun e => keyOf e.1)).Sublist
      (sub.map (fun e => keyOf e.1)) := by
  rw [zorder_not_effective_apply_legend, List.map_map]
  have h : ((fun e : SubEntry => keyOf e.1) ∘ (fun e : SubEntry =>
      ((e.1, true, some tables_zorder_not_effective) : SubEntry))) =
      (fun e : SubEntry => keyOf e.1) := rfl
  rw [h]
  exact List.Sublist.map _ ((List.filter_sublist _).trans (List.filter_sublist _))

theorem subResults_const_shape (stats : List StatsRow) (cond : StatsRow → Bool)
    (L : String) :
    subResults stats cond (fun sub => sub.map (fun e => (e.1, true, some L))) =
      (stats.filter cond).map (fun r => (keyOf r, true, some L)) := by
  rw [subResults, List.map_map, List.map_map]
  rfl

theorem need_optimize_canonical (p : HousekeepingParams) (stats : List StatsRow)
    (hU : (stats.map keyOf).Nodup) :
    need_optimize p stats = stats.map (fun r =>
      canonicalRow .optimize (hasCol .optimize stats) tables_not_optimized_legend
        (firedNeedOptimize p r) r) := by
  rw [need_optimize]
  exact apply_changes_map_shape stats _ .optimize
    (fun r => (r.bytes.map (fun b => decide (p.min_table_size_optimize < b))).getD false)
    tables_not_optimized_legend _ hU
    (fun sub => map_keys_sublist
      (fun e => if (e.1.bytes.map (fun b => decide (p.min_table_size_optimize < b))).getD false
        then (e.1, true, some tables_not_optimized_legend) else e)
      (fun e => by
        by_cases h : (e.1.bytes.map (fun b => decide (p.min_table_size_optimize < b))).getD false =
          true <;> simp [h]) sub)
    (subResults_if_shape stats (fun r => r.max_optimize_timestamp.isNone && r.bytes.isSome)
      (fun r => (r.bytes.map (fun b => decide (p.min_table_size_optimize < b))).getD false)
      tables_not_optimized_legend)

theorem never_vacuumed_canonical (p : HousekeepingParams) (stats : List StatsRow)
    (hU : (stats.map keyOf).Nodup) :
    never_vacuumed p stats = stats.map (fun r =>
      canonicalRow .vacuum (hasCol .vacuum stats) tables_not_vacuumed_legend
        (firedNeverVacuumed r) r) := by
  rw [never_vacuumed]
  exact apply_changes_filter_shape stats _ .vacuum
    (fun r => r.max_vacuum_timestamp.isNone) tables_not_vacuumed_legend _ hU
    (fun sub => map_keys_sublist
      (fun e => (e.1, true, some tables_not_vacuumed_legend)) (fun e => rfl) sub)
    (subResults_const_shape stats (fun r => r.max_vacuum_timestamp.isNone)
      tables_not_vacuumed_legend)

theorem not_optimized_last_days_canonical (p : HousekeepingParams) (stats : List StatsRow)
    (hU : (stats.map keyOf).Nodup) :
    not_optimized_last_days p stats = stats.map (fun r =>
      canonicalRow .optimize (hasCol .optimize stats) tables_not_optimized_last_days
        (firedNotOptimizedLastDays p r) r) := by
  rw [not_optimized_last_days]
  exact apply_changes_map_shape stats _ .optimize
    (fun r => (r.max_optimize_timestamp.map
      (fun ts => decide (p.min_days_not_optimized <
        Int.fdiv (p.now - ts) secondsPerDay))).getD false)
    tables_not_optimized_last_days _ hU
    (fun sub => map_keys_sublist
      (fun e => if (e.1.max_optimize_timestamp.map
          (fun ts => decide (p.min_days_not_optimized <
            Int.fdiv (p.now - ts) secondsPerDay))).getD false
        then (e.1, true, some tables_not_optimized_last_days) else e)
      (fun e => by
        by_cases h : (e.1.max_optimize_timestamp.map
          (fun ts => decide (p.min_days_not_optimized <
            Int.fdiv (p.now - ts) secondsPerDay))).getD false = true <;> simp [h]) sub)
    (subResults_if_shape stats (fun r => !r.max_optimize_timestamp.isNone)
      (fun r => (r.max_optimize_timestamp.map
        (fun ts => decide (p.min_days_not_optimized <
          Int.fdiv (p.now - ts) secondsPerDay))).getD false)
      tables_not_optimized_last_days)

theorem not_vacuumed_last_days_canonical (p : HousekeepingParams) (stats : List StatsRow)
    (hU : (stats.map keyOf).Nodup) :
    not_vacuumed_last_days p stats = stats.map (fun r =>
      canonicalRow .vacuum (hasCol .vacuum stats) tables_not_vacuumed_last_days
        (firedNotVacuumedLastDays p r) r) := by
  rw [not_vacuumed_last_days]
  exact apply_changes_map_shape stats _ .vacuum
    (fun r => (r.max_vacuum_timestamp.map
      (fun ts => decide (p.min_days_not_vacuumed <
        Int.fdiv (p.now - ts) secondsPerDay))).getD false)
    tables_not_vacuumed_last_days _ hU
    (fun sub => map_keys_sublist
      (fun e => if (e.1.max_vacuum_timestamp.map
          (fun ts => decide (p.min_days_not_vacuumed <
            Int.fdiv (p.now - ts) secondsPerDay))).getD false
        then (e.1, true, some tables_not_vacuumed_last_days) else e)
      (fun e => by
        by_cases h : (e.1.max_vacuum_timestamp.map
          (fun ts => decide (p.min_days_not_vacuumed <
            Int.fdiv (p.now - ts) secondsPerDay))).getD false = true <;> simp [h]) sub)
    (subResults_if_shape stats (fun r => !r.max_vacuum_timestamp.isNone)
      (fun r => (r.max_vacuum_timestamp.map
        (fun ts => decide (p.min_days_not_vacuumed <
          Int.fdiv (p.now - ts) secondsPerDay))).getD false)
      tables_not_vacuumed_last_days)

theorem optimized_too_frequently_canonical (p : HousekeepingParams) (stats : List StatsRow)
    (hU : (stats.map keyOf).Nodup) :
    optimized_too_frequently p stats = stats.map (fun r =>
      canonicalRow .optimize (hasCol .optimize stats) tables_optimized_too_freq
        (firedOptimizedTooFrequently p r) r) := by
  rw [optimized_too_frequently]
  exact apply_changes_map_shape stats
    (fun r => r.max_optimize_timestamp.isSome && r.snd_optimize_timestamp.isSome) .optimize
    (fun r => match r.max_optimize_timestamp, r.snd_optimize_timestamp with
      | some t1, some t2 =>
          decide (Int.fdiv (t1 - t2) secondsPerDay < p.max_optimize_freq)
      | _, _ => false)
    tables_optimized_too_freq _ hU
    (fun sub => map_keys_sublist
      (fun e => match e.1.max_optimize_timestamp, e.1.snd_optimize_timestamp with
        | some t1, some t2 =>
            if Int.fdiv (t1 - t2) secondsPerDay < p.max_optimize_freq
            then (e.1, true, some tables_optimized_too_freq) else e
        | _, _ => e)
      (fun e => by
        rcases h1 : e.1.max_optimize_timestamp with _ | t1 <;>
          rcases h2 : e.1.snd_optimize_timestamp with _ | t2 <;>
            simp only [h1, h2] <;>
              first
              | rfl
              | (split <;> rfl)) sub)
    (subResults_diff_shape stats
      (fun r => r.max_optimize_timestamp.isSome && r.snd_optimize_timestamp.isSome)
      p.max_optimize_freq tables_optimized_too_freq
      (fun r => r.max_optimize_timestamp) (fun r => r.snd_optimize_timestamp))

theorem vacuumed_too_frequently_canonical (p : HousekeepingParams) (stats : List StatsRow)
    (hU : (stats.map keyOf).Nodup) :
    vacuumed_too_frequently p stats = stats.map (fun r =>
      canonicalRow .vacuum (hasCol .vacuum stats) tables_vacuumed_too_freq
        (firedVacuumedTooFrequently p r) r) := by
  rw [vacuumed_too_frequently]
  exact apply_changes_map_shape stats
    (fun r => r.max_vacuum_timestamp.isSome && r.snd_vacuum_timestamp.isSome) .vacuum
    (fun r => match r.max_vacuum_timestamp, r.snd_vacuum_timestamp with
      | some t1, some t2 =>
          decide (Int.fdiv (t1 - t2) secondsPerDay < p.max_vacuum_freq)
      | _, _ => false)
    tables_vacuumed_too_freq _ hU
    (fun sub => map_keys_sublist
      (fun e => match e.1.max_vacuum_timestamp, e.1.snd_vacuum_timestamp with
        | some t1, some t2 =>
            if Int.fdiv (t1 - t2) secondsPerDay < p.max_vacuum_freq
            then (e.1, true, some tables_vacuumed_too_freq) else e
        | _, _ => e)
      (fun e => by
        rcases h1 : e.1.max_vacuum_timestamp with _ | t1 <;>
          rcases h2 : e.1.snd_vacuum_timestamp with _ | t2 <;>
            simp only [h1, h2] <;>
              first
              | rfl
              | (split <;> rfl)) sub)
    (subResults_diff_shape stats
      (fun r => r.max_vacuum_timestamp.isSome && r.snd_vacuum_timestamp.isSome)
      p.max_vacuum_freq tables_vacuumed_too_freq
      (fun r => r.max_vacuum_timestamp) (fun r => r.snd_vacuum_timestamp))

theorem optimize_not_needed_canonical (p : HousekeepingParams) (stats : List StatsRow)
    (hU : (stats.map keyOf).Nodup) :
    optimize_not_needed p stats = stats.map (fun r =>
      canonicalRow .optimize (hasCol .optimize stats) tables_do_not_need_optimize
        (firedOptimizeNotNeeded p r) r) := by
  rw [optimize_not_needed]
  exact apply_changes_map_shape stats
    (fun r => r.max_optimize_timestamp.isSome && r.bytes.isSome) .optimize
    (fun r => r.max_optimize_timestamp.isSome &&
      (r.bytes.map (fun b => decide (b < p.min_table_size_optimize))).getD false)
    tables_do_not_need_optimize _ hU
    (fun sub => map_keys_sublist
      (fun e => if e.1.max_optimize_timestamp.isSome &&
          (e.1.bytes.map (fun b => decide (b < p.min_table_size_optimize))).getD false
        then (e.1, true, some tables_do_not_need_optimize) else e)
      (fun e => by
        by_cases h : (e.1.max_optimize_timestamp.isSome &&
          (e.1.bytes.map (fun b => decide (b < p.min_table_size_optimize))).getD false) =
            true <;> simp [h]) sub)
    (subResults_if_shape stats (fun r => r.max_optimize_timestamp.isSome && r.bytes.isSome)
      (fun r => r.max_optimize_timestamp.isSome &&
        (r.bytes.map (fun b => decide (b < p.min_table_size_optimize))).getD false)
      tables_do_not_need_optimize)

theorem analyze_these_tables_canonical (p : HousekeepingParams) (stats : List StatsRow)
    (hU : (stats.map keyOf).Nodup) :
    analyze_these_tables p stats = stats.map (fun r =>
      canonicalRow .misc (hasCol .misc stats) tables_to_analyze
        (firedAnalyzeTables p r) r) := by
  rw [analyze_these_tables]
  exact apply_changes_map_shape stats
    (fun r => r.max_optimize_timestamp.isSome && r.p50_file_size.isSome &&
      (r.number_of_files.map (fun n => decide (1 < n))).getD false) .misc
    (fun r => (r.p50_file_size.map (fun s => decide (s < p.small_file_threshold))).getD false)
    tables_to_analyze _ hU
    (fun sub => map_keys_sublist
      (fun e => if (e.1.p50_file_size.map
          (fun s => decide (s < p.small_file_threshold))).getD false
        then (e.1, true, some tables_to_analyze) else e)
      (fun e => by
        by_cases h : (e.1.p50_file_size.map
          (fun s => decide (s < p.small_file_threshold))).getD false = true <;> simp [h]) sub)
    (subResults_if_shape stats
      (fun r => r.max_optimize_timestamp.isSome && r.p50_file_size.isSome &&
        (r.number_of_files.map (fun n => decide (1 < n))).getD false)
      (fun r => (r.p50_file_size.map (fun s => decide (s < p.small_file_threshold))).getD false)
      tables_to_analyze)

theorem zorder_not_effective_canonical (p : HousekeepingParams) (stats : List StatsRow)
    (hU : (stats.map keyOf).Nodup) :
    zorder_not_effective p stats = stats.map (fun r =>
      canonicalRow .misc (hasCol .misc stats) tables_zorder_not_effective
        (firedZorderNotEffective p r) r) := by
  rw [zorder_not_effective]
  exact apply_changes_filter_shape stats
    (fun r => r.max_optimize_timestamp.isSome && r.p50_file_size.isSome) .misc
    (fun r => (((r.number_of_files.map
        (fun n => decide (n < p.min_number_of_files_for_zorder))).getD false) &&
      (decide (0 < (zorder_array r.z_order_by).length))) &&
      (r.max_optimize_timestamp.isSome && r.p50_file_size.isSome))
    tables_zorder_not_effective _ hU
    (fun sub => zorder_keys_sublist p.min_number_of_files_for_zorder sub)
    (subResults_zorder_shape stats
      (fun r => r.max_optimize_timestamp.isSome && r.p50_file_size.isSome)
      p.min_number_of_files_for_zorder)

/-! ## Structural facts about the canonical rule form -/

theorem keyOf_set (t : FlagCol) (r : StatsRow) (b : Bool) (s : String) :
    keyOf (t.set r b s) = keyOf r := by
  cases t <;> rfl

theorem keyOf_canonicalRow (t : FlagCol) (present : Bool) (L : String) (fired : Bool)
    (r : StatsRow) : keyOf (canonicalRow t present L fired r) = keyOf r := by
  rw [canonicalRow]
  split <;> exact keyOf_set ..

theorem flag_set_self (t : FlagCol) (r : StatsRow) (b : Bool) (s : String) :
    t.flag (t.set r b s) = some b := by
  cases t <;> rfl

theorem reason_set_self (t : FlagCol) (r : StatsRow) (b : Bool) (s : String) :
    t.reason (t.set r b s) = some s := by
  cases t <;> rfl

theorem flag_set_other (t t' : FlagCol) (h : t' ≠ t) (r : StatsRow) (b : Bool) (s : String) :
    t'.flag (t.set r b s) = t'.flag r := by
  cases t <;> cases t' <;> first | rfl | exact absurd rfl h

theorem reason_set_other (t t' : FlagCol) (h : t' ≠ t) (r : StatsRow) (b : Bool) (s : String) :
    t'.reason (t.set r b s) = t'.reason r := by
  cases t <;> cases t' <;> first | rfl | exact absurd rfl h

theorem coreOf_set (t : FlagCol) (r : StatsRow) (b : Bool) (s : String) :
    coreOf (t.set r b s) = coreOf r := by
  cases t <;> rfl

theorem coreOf_canonicalRow (t : FlagCol) (present : Bool) (L : String) (fired : Bool)
    (r : StatsRow) : coreOf (canonicalRow t present L fired r) = coreOf r := by
  rw [canonicalRow]
  split <;> exact coreOf_set ..

theorem flag_canonicalRow_self (t : FlagCol) (present : Bool) (L : String) (fired : Bool)
    (r : StatsRow) :
    t.flag (canonicalRow t present L fired r) =
      some (if present then ((t.flag r).getD false || fired) else fired) := by
  by_cases hp : present = true
  · simp [canonicalRow, hp, flag_set_self]
  · have hp' : present = false := by simpa using hp
    simp [canonicalRow, hp', flag_set_self]

theorem reason_canonicalRow_self (t : FlagCol) (present : Bool) (L : String) (fired : Bool)
    (r : StatsRow) :
    t.reason (canonicalRow t present L fired r) =
      some (if present then ((((t.reason r).getD "") ++ " | ") ++ (if fired then L else ""))
            else (if fired then L else "")) := by
  by_cases hp : present = true
  · simp [canonicalRow, hp, reason_set_self]
  · have hp' : present = false := by simpa using hp
    simp [canonicalRow, hp', reason_set_self]

theorem flag_canonicalRow_other (t t' : FlagCol) (h : t' ≠ t) (present : Bool) (L : String)
    (fired : Bool) (r : StatsRow) :
    t'.flag (canonicalRow t present L fired r) = t'.flag r := by
  rw [canonicalRow]
  split <;> exact flag_set_other t t' h ..

theorem reason_canonicalRow_other (t t' : FlagCol) (h : t' ≠ t) (present : Bool) (L : String)
    (fired : Bool) (r : StatsRow) :
    t'.reason (canonicalRow t present L fired r) = t'.reason r := by
  rw [canonicalRow]
  split <;> exact reason_set_other t t' h ..

theorem hasCol_of_mem (t : FlagCol) (stats : List StatsRow) (r : StatsRow) (hr : r ∈ stats)
    (hs : (t.flag r).isSome = true) : hasCol t stats = true := by
  rw [hasCol, List.any_eq_true]
  exact ⟨r, hr, hs⟩

/-! ## Substring containment -/

theorem containsStr_self (s : String) : containsStr s s :=
  ⟨"", "", by rw [String.empty_append, String.append_empty]⟩

theorem containsStr_append_right {s sub : String} (h : containsStr s sub) (x : String) :
    containsStr (s ++ x) sub := by
  obtain ⟨a, b, rfl⟩ := h
  exact ⟨a, b ++ x, by rw [String.append_assoc (a ++ sub) b x]⟩

theorem containsStr_append_left {s sub : String} (h : containsStr s sub) (x : String) :
    containsStr (x ++ s) sub := by
  obtain ⟨a, b, rfl⟩ := h
  exact ⟨x ++ a, b, by rw [String.append_assoc x a sub, String.append_assoc x (a ++ sub) b]⟩

theorem canonicalRow_establish (t : FlagCol) (present : Bool) (L : String) (r : StatsRow) :
    t.flag (canonicalRow t present L true r) = some true ∧
    ∃ s, t.reason (canonicalRow t present L true r) = some s ∧ containsStr s L := by
  refine ⟨?_, ?_⟩
  · rw [flag_canonicalRow_self]
    cases present
    · simp
    · simp [Bool.or_true]
  · rw [reason_canonicalRow_self]
    cases present
    · exact ⟨L, by simp, containsStr_self L⟩
    · exact ⟨((t.reason r).getD "" ++ " | ") ++ L, by simp,
        containsStr_append_left (containsStr_self L) _⟩

/-! ## The rule pipeline -/

theorem ruleAt_preserving (p : HousekeepingParams) (n : Nat) :
    RulePreserving (ruleAt p n) := by
  rcases n with _ | _ | _ | _ | _ | _ | _ | _ | _ | n
  · exact Or.inr ⟨.optimize, tables_not_optimized_legend, firedNeedOptimize p,
      fun stats h => need_optimize_canonical p stats h⟩
  · exact Or.inr ⟨.vacuum, tables_not_vacuumed_legend, firedNeverVacuumed,
      fun stats h => never_vacuumed_canonical p stats h⟩
  · exact Or.inr ⟨.optimize, tables_not_optimized_last_days, firedNotOptimizedLastDays p,
      fun stats h => not_optimized_last_days_canonical p stats h⟩
  · exact Or.inr ⟨.vacuum, tables_not_vacuumed_last_days, firedNotVacuumedLastDays p,
      fun stats h => not_vacuumed_last_days_canonical p stats h⟩
  · exact Or.inr ⟨.optimize, tables_optimized_too_freq, firedOptimizedTooFrequently p,
      fun stats h => optimized_too_frequently_canonical p stats h⟩
  · exact Or.inr ⟨.vacuum, tables_vacuumed_too_freq, firedVacuumedTooFrequently p,
      fun stats h => vacuumed_too_frequently_canonical p stats h⟩
  · exact Or.inr ⟨.optimize, tables_do_not_need_optimize, firedOptimizeNotNeeded p,
      fun stats h => optimize_not_needed_canonical p stats h⟩
  · exact Or.inr ⟨.misc, tables_to_analyze, firedAnalyzeTables p,
      fun stats h => analyze_these_tables_canonical p stats h⟩
  · exact Or.inr ⟨.misc, tables_zorder_not_effective, firedZorderNotEffective p,
      fun stats h => zorder_not_effective_canonical p stats h⟩
  · exact Or.inl rfl

theorem stage_map_keyOf (p : HousekeepingParams) (stats : List StatsRow)
    (hU : (stats.map keyOf).Nodup) :
    ∀ n, (stage p stats n).map keyOf = stats.map keyOf := by
  intro n
  induction n with
  | zero => rfl
  | succ n ih =>
    rw [stage]
    rcases ruleAt_preserving p n with hid | ⟨t, L, fired, hg⟩
    · rw [hid]
      exact ih
    · rw [hg (stage p stats n) (by rw [ih]; exact hU), List.map_map]
      have h : ((keyOf ∘ fun r =>
          canonicalRow t (hasCol t (stage p stats n)) L (fired r) r)) = keyOf := by
        funext r
        simp only [Function.comp_apply]
        exact keyOf_canonicalRow ..
      rw [h]
      exact ih

theorem stage_nodup (p : HousekeepingParams) (stats : List StatsRow)
    (hU : (stats.map keyOf).Nodup) (n : Nat) :
    ((stage p stats n).map keyOf).Nodup := by
  rw [stage_map_keyOf p stats hU n]
  exact hU

theorem stage_core (p : HousekeepingParams) (stats : List StatsRow)
    (hU : (stats.map keyOf).Nodup) (k : TableKey) :
    ∀ n, (lookupRow k (stage p stats n)).map coreOf = (lookupRow k stats).map coreOf := by
  intro n
  induction n with
  | zero => rfl
  | succ n ih =>
    rw [stage]
    rcases ruleAt_preserving p n with hid | ⟨t, L, fired, hg⟩
    · rw [hid]
      exact ih
    · rw [hg (stage p stats n) (stage_nodup p stats hU n)]
      rw [lookupRow_map k _ _ (fun r => keyOf_canonicalRow ..)]
      rw [← ih]
      cases lookupRow k (stage p stats n) with
      | none => rfl
      | some r => simp [coreOf_canonicalRow]

theorem stage_persist_flag (p : HousekeepingParams) (stats : List StatsRow)
    (hU : (stats.map keyOf).Nodup) (t : FlagCol) (k : TableKey) :
    ∀ n m, n ≤ m →
    (∃ r, lookupRow k (stage p stats n) = some r ∧ t.flag r = some true) →
    (∃ r, lookupRow k (stage p stats m) = some r ∧ t.flag r = some true) := by
  intro n m hnm h
  induction m, hnm using Nat.le_induction with
  | base => exact h
  | succ m _ ih =>
    obtain ⟨r, hr, hflag⟩ := ih
    rw [stage]
    rcases ruleAt_preserving p m with hid | ⟨t', L, fired, hg⟩
    · rw [hid]
      exact ⟨r, hr, hflag⟩
    · rw [hg (stage p stats m) (stage_nodup p stats hU m)]
      rw [lookupRow_map k _ _ (fun r => keyOf_canonicalRow ..), hr]
      by_cases ht : t = t'
      · subst ht
        refine ⟨_, rfl, ?_⟩
        have hpres : hasCol t (stage p stats m) = true :=
          hasCol_of_mem t _ r (List.mem_of_find?_eq_some hr) (by rw [hflag]; rfl)
        rw [flag_canonicalRow_self, hpres]
        simp [hflag]
      · refine ⟨_, rfl, ?_⟩
        rw [flag_canonicalRow_other t' t (by exact ht) _ L (fired r) r]
        exact hflag

theorem stage_persist_reason (p : HousekeepingParams) (stats : List StatsRow)
    (hU : (stats.map keyOf).Nodup) (t : FlagCol) (k : TableKey) (L0 : String) :
    ∀ n m, n ≤ m →
    (∃ r, lookupRow k (stage p stats n) = some r ∧ t.flag r = some true ∧
      ∃ s, t.reason r = some s ∧ containsStr s L0) →
    (∃ r, lookupRow k (stage p stats m) = some r ∧ t.flag r = some true ∧
      ∃ s, t.reason r = some s ∧ containsStr s L0) := by
  intro n m hnm h
  induction m, hnm using Nat.le_induction with
  | base => exact h
  | succ m _ ih =>
    obtain ⟨r, hr, hflag, s, hs, hcont⟩ := ih
    rw [stage]
    rcases ruleAt_preserving p m with hid | ⟨t', L, fired, hg⟩
    · rw [hid]
      exact ⟨r, hr, hflag, s, hs, hcont⟩
    · rw [hg (stage p stats m) (stage_nodup p stats hU m)]
      rw [lookupRow_map k _ _ (fun r => keyOf_canonicalRow ..), hr]
      by_cases ht : t = t'
      · subst ht
        have hpres : hasCol t (stage p stats m) = true :=
          hasCol_of_mem t _ r (List.mem_of_find?_eq_some hr) (by rw [hflag]; rfl)
        refine ⟨_, rfl, ?_, ?_⟩
        · rw [flag_canonicalRow_self, hpres]
          simp [hflag]
        · rw [reason_canonicalRow_self, hpres]
          refine ⟨((t.reason r).getD "" ++ " | ") ++ (if fired r then L else ""),
            by rw [if_pos rfl], ?_⟩
          rw [hs]
          exact containsStr_append_right (containsStr_append_right hcont " | ") _
      · refine ⟨_, rfl, ?_, s, ?_, hcont⟩
        · rw [flag_canonicalRow_other t' t (by exact ht) _ L (fired r) r]
          exact hflag
        · rw [reason_canonicalRow_other t' t (by exact ht) _ L (fired r) r]
          exact hs

/-! ## Claims about the recommendation engine -/

/-- C4: within one `generate_recommendations` run each of the flags
`rec_optimize`, `rec_vacuum` and `rec_misc` is monotone: for every row
(identified by its key in a stats frame with unique keys), once some rule
application has set the flag to `true`, every later rule application leaves
it `true` - no rule resets a flag to `false`. -/
theorem rec_flags_monotone (p : HousekeepingParams) (stats : List StatsRow)
    (hU : (stats.map keyOf).Nodup) (i j : Nat) (hij : i ≤ j) (t : FlagCol) (k : TableKey)
    (h : (lookupRow k (stage p stats i)).bind t.flag = some true) :
    (lookupRow k (stage p stats j)).bind t.flag = some true := by
  have h' : ∃ r, lookupRow k (stage p stats i) = some r ∧ t.flag r = some true := by
    cases hl : lookupRow k (stage p stats i) with
    | none => rw [hl] at h; simp at h
    | some r => rw [hl] at h; exact ⟨r, rfl, h⟩
  obtain ⟨r, hr, hf⟩ := stage_persist_flag p stats hU t k i j hij h'
  rw [hr]
  exact hf

theorem rec_flags_monotone_witness :
    ((([blankRow ⟨"c", "d", "t"⟩].map keyOf).Nodup) ∧ 2 ≤ 9 ∧
      (lookupRow ⟨"c", "d", "t"⟩
        (stage { now := 0 } [blankRow ⟨"c", "d", "t"⟩] 2)).bind
        FlagCol.vacuum.flag = some true) ∧
    (lookupRow ⟨"c", "d", "t"⟩
      (stage { now := 0 } [blankRow ⟨"c", "d", "t"⟩] 9)).bind
      FlagCol.vacuum.flag = some true :=
  ⟨⟨by decide, by decide, by decide⟩,
    rec_flags_monotone { now := 0 } _ (by decide) 2 9 (by decide) .vacuum ⟨"c", "d", "t"⟩
      (by decide)⟩

/-- C2: for every summary row whose `max_optimize_timestamp` is null and
whose `bytes` field is non-null and strictly greater than
`min_table_size_optimize`, after `generate_recommendations` the row has
`rec_optimize = true` and `rec_optimize_reason` containing the legend
"The table has not been OPTIMIZED and would benefit from it". -/
theorem need_optimize_flags_large_tables (p : HousekeepingParams) (stats : List StatsRow)
    (hU : (stats.map keyOf).Nodup) (r0 : StatsRow) (hr : r0 ∈ stats) (b : Int)
    (hnull : r0.max_optimize_timestamp = none) (hb : r0.bytes = some b)
    (hgt : p.min_table_size_optimize < b) :
    ∃ r, lookupRow (keyOf r0) (generate_recommendations p stats) = some r ∧
      r.rec_optimize = some true ∧
      ∃ s, r.rec_optimize_reason = some s ∧ containsStr s tables_not_optimized_legend := by
  have h1 : ∃ r, lookupRow (keyOf r0) (stage p stats 1) = some r ∧
      FlagCol.optimize.flag r = some true ∧
      ∃ s, FlagCol.optimize.reason r = some s ∧ containsStr s tables_not_optimized_legend := by
    have hst : stage p stats 1 = need_optimize p stats := rfl
    rw [hst, need_optimize_canonical p stats hU]
    rw [lookupRow_map _ _ _ (fun r => keyOf_canonicalRow ..)]
    rw [lookupRow_self stats hU r0 hr]
    have hfired : firedNeedOptimize p r0 = true := by
      simp [firedNeedOptimize, hnull, hb, hgt]
    refine ⟨_, rfl, ?_⟩
    simp only [hfired]
    exact canonicalRow_establish .optimize _ tables_not_optimized_legend r0
  have h9 := stage_persist_reason p stats hU .optimize (keyOf r0)
    tables_not_optimized_legend 1 9 (by omega) h1
  exact h9

theorem need_optimize_flags_large_tables_witness :
    ((([largeNeverOptimizedRow].map keyOf).Nodup) ∧
      largeNeverOptimizedRow.max_optimize_timestamp = none ∧
      largeNeverOptimizedRow.bytes = some (200 * 1024 * 1024) ∧
      (128 * 1024 * 1024 : Int) < 200 * 1024 * 1024) ∧
    ∃ r, lookupRow (keyOf largeNeverOptimizedRow)
        (generate_recommendations { now := 0 } [largeNeverOptimizedRow]) = some r ∧
      r.rec_optimize = some true ∧
      ∃ s, r.rec_optimize_reason = some s ∧ containsStr s tables_not_optimized_legend :=
  ⟨⟨by decide, by decide, by decide, by decide⟩,
    need_optimize_flags_large_tables { now := 0 } _ (by decide) _ (by decide)
      (200 * 1024 * 1024) (by decide) (by decide) (by decide)⟩

/-- C3: for every summary row where both `max_optimize_timestamp` and
`2nd_optimize_timestamp` are non-null and their difference in whole days
(floor) is strictly less than `max_optimize_freq`, after
`generate_recommendations` the row has `rec_optimize = true` and
`rec_optimize_reason` containing "Tables that are OPTIMIZED too often";
the witness instantiates the spec scenario `max = now - 2 days`,
`2nd = now - 3 days`, `max_optimize_freq = 2`. -/
theorem optimized_too_frequently_flags (p : HousekeepingParams) (stats : List StatsRow)
    (hU : (stats.map keyOf).Nodup) (r0 : StatsRow) (hr : r0 ∈ stats) (t1 t2 : Int)
    (h1 : r0.max_optimize_timestamp = some t1) (h2 : r0.snd_optimize_timestamp = some t2)
    (hlag : Int.fdiv (t1 - t2) secondsPerDay < p.max_optimize_freq) :
    ∃ r, lookupRow (keyOf r0) (generate_recommendations p stats) = some r ∧
      r.rec_optimize = some true ∧
      ∃ s, r.rec_optimize_reason = some s ∧ containsStr s tables_optimized_too_freq := by
  have hcore := stage_core p stats hU (keyOf r0) 4
  rw [lookupRow_self stats hU r0 hr] at hcore
  cases hl4 : lookupRow (keyOf r0) (stage p stats 4) with
  | none => rw [hl4] at hcore; simp at hcore
  | some r4 =>
    rw [hl4] at hcore
    have hco : coreOf r4 = coreOf r0 := by
      simpa using hcore
    have h1' : r4.max_optimize_timestamp = some t1 := by
      have h := congrArg StatsRow.max_optimize_timestamp hco
      rw [show (coreOf r4).max_optimize_timestamp = r4.max_optimize_timestamp from rfl,
        show (coreOf r0).max_optimize_timestamp = r0.max_optimize_timestamp from rfl] at h
      rw [h, h1]
    have h2' : r4.snd_optimize_timestamp = some t2 := by
      have h := congrArg StatsRow.snd_optimize_timestamp hco
      rw [show (coreOf r4).snd_optimize_timestamp = r4.snd_optimize_timestamp from rfl,
        show (coreOf r0).snd_optimize_timestamp = r0.snd_optimize_timestamp from rfl] at h
      rw [h, h2]
    have h5 : ∃ r, lookupRow (keyOf r0) (stage p stats 5) = some r ∧
        FlagCol.optimize.flag r = some true ∧
        ∃ s, FlagCol.optimize.reason r = some s ∧ containsStr s tables_optimized_too_freq := by
      have hst : stage p stats 5 = optimized_too_frequently p (stage p stats 4) := rfl
      rw [hst, optimized_too_frequently_canonical p _ (stage_nodup p stats hU 4)]
      rw [lookupRow_map _ _ _ (fun r => keyOf_canonicalRow ..), hl4]
      have hfired : firedOptimizedTooFrequently p r4 = true := by
        simp [firedOptimizedTooFrequently, h1', h2', hlag]
      refine ⟨_, rfl, ?_⟩
      simp only [hfired]
      exact canonicalRow_establish .optimize _ tables_optimized_too_freq r4
    exact stage_persist_reason p stats hU .optimize (keyOf r0)
      tables_optimized_too_freq 5 9 (by omega) h5

theorem optimized_too_frequently_flags_witness :
    ((([recentlyOptimizedTwiceRow].map keyOf).Nodup) ∧
      recentlyOptimizedTwiceRow.max_optimize_timestamp = some (1000000 - 2 * 86400) ∧
      recentlyOptimizedTwiceRow.snd_optimize_timestamp = some (1000000 - 3 * 86400) ∧
      Int.fdiv ((1000000 - 2 * 86400) - (1000000 - 3 * 86400)) secondsPerDay < 2) ∧
    ∃ r, lookupRow (keyOf recentlyOptimizedTwiceRow)
        (generate_recommendations { max_optimize_freq := 2, now := 1000000 }
          [recentlyOptimizedTwiceRow]) = some r ∧
      r.rec_optimize = some true ∧
      ∃ s, r.rec_optimize_reason = some s ∧ containsStr s tables_optimized_too_freq :=
  ⟨⟨by decide, by decide, by decide, by decide⟩,
    optimized_too_frequently_flags { max_optimize_freq := 2, now := 1000000 } _ (by decide)
      _ (by decide) (1000000 - 2 * 86400) (1000000 - 3 * 86400) (by decide) (by decide)
      (by decide)⟩

theorem keyOf_composeRow (t : FlagCol) (present : Bool) (r : StatsRow)
    (m : Option (Bool × Option String)) : keyOf (composeRow t present r m) = keyOf r := by
  rw [composeRow]
  split <;> exact keyOf_set ..

theorem composeRow_present (t : FlagCol) (r : StatsRow) (m : Option (Bool × Option String)) :
    composeRow t true r m = t.set r (((t.flag r).getD false) || (m.map (fun x => x.1)).getD false)
      ((((t.reason r).getD "") ++ " | ") ++ ((m.bind (fun x => x.2)).getD "")) := by
  simp [composeRow]

/-- C5 counterexample: re-applying a rule to a row whose flag column exists
with reason `"A"`, where the new reason is empty, yields the dangling
separator `"A | "` instead of `"A"` - the empty reason is not an identity
of the `" | "` join in the code. -/
theorem reason_join_dangling_separator :
    ((need_optimize { now := 0 } [composedReasonRow]).map
      (fun r => r.rec_optimize_reason) = [some "A | "]) ∧
    ¬ ((need_optimize { now := 0 } [composedReasonRow]).map
      (fun r => r.rec_optimize_reason) = [some "A"]) := by
  constructor
  · decide
  · decide

/-- C5 amended: when a rule is applied to a flag column that already exists
from a prior rule, the prior and new verdicts are combined by logical OR on
the flag and by an unconditional `" | "` string-join on the reason: the
combined reason is always `old ++ " | " ++ new`, so a row for which only
the old reason is non-empty ends with a dangling `" | "` separator (the
empty reason is not the identity of the join). -/
theorem apply_changes_compose_or_join (stats : List StatsRow) (cond : StatsRow → Bool)
    (t : FlagCol) (f : List SubEntry → List SubEntry)
    (hU : (stats.map keyOf).Nodup)
    (hf : ∀ sub, ((f sub).map (fun e => keyOf e.1)).Sublist (sub.map (fun e => keyOf e.1)))
    (hpresent : hasCol t stats = true) (r : StatsRow) (hr : r ∈ stats) :
    ∃ (nf : Bool) (nr : String),
      lookupRow (keyOf r) (apply_changes_to_stats stats cond t f) =
        some (t.set r (((t.flag r).getD false) || nf)
          ((((t.reason r).getD "") ++ " | ") ++ nr)) := by
  rw [apply_changes_eq_map stats cond t f hU hf,
    lookupRow_map _ _ _ (fun r => keyOf_composeRow ..),
    lookupRow_self stats hU r hr]
  refine ⟨(((((subResults stats cond f).find? (fun s => s.1 == keyOf r)).map
      (fun s => s.2)).map (fun x => x.1)).getD false),
    (((((subResults stats cond f).find? (fun s => s.1 == keyOf r)).map
      (fun s => s.2)).bind (fun x => x.2)).getD ""), ?_⟩
  simp only [Option.map_some']
  rw [hpresent, composeRow_present]

theorem apply_changes_compose_or_join_witness :
    (([composedReasonRow].map keyOf).Nodup ∧
      hasCol .optimize [composedReasonRow] = true ∧
      composedReasonRow ∈ [composedReasonRow]) ∧
    ∃ (nf : Bool) (nr : String),
      lookupRow (keyOf composedReasonRow)
        (apply_changes_to_stats [composedReasonRow]
          (fun r => r.max_optimize_timestamp.isNone && r.bytes.isSome) .optimize
          (need_optimize_apply_legend (128 * 1024 * 1024))) =
        some (FlagCol.optimize.set composedReasonRow
          (((FlagCol.optimize.flag composedReasonRow).getD false) || nf)
          ((((FlagCol.optimize.reason composedReasonRow).getD "") ++ " | ") ++ nr)) :=
  ⟨⟨by decide, by decide, by decide⟩,
    apply_changes_compose_or_join [composedReasonRow] _ .optimize _ (by decide)
      (fun sub => map_keys_sublist
        (fun e => if (e.1.bytes.map
            (fun b => decide ((128 * 1024 * 1024 : Int) < b))).getD false
          then (e.1, true, some tables_not_optimized_legend) else e)
        (fun e => by dsimp only; split <;> rfl) sub)
      (by decide) _ (by decide)⟩

/-- C9: every single rule application via `_apply_changes_to_stats`, on a
stats frame whose (catalog, database, tableName) keys are unique, preserves
the list of row keys (the outer merge on the identity key neither drops nor
duplicates any row) and rewrites each row only through `FlagCol.set` of the
target column, leaving every column other than the target flag and reason
columns unchanged. -/
theorem apply_changes_frame (stats : List StatsRow) (cond : StatsRow → Bool)
    (t : FlagCol) (f : List SubEntry → List SubEntry)
    (hU : (stats.map keyOf).Nodup)
    (hf : ∀ sub, ((f sub).map (fun e => keyOf e.1)).Sublist (sub.map (fun e => keyOf e.1))) :
    ((apply_changes_to_stats stats cond t f).map keyOf = stats.map keyOf) ∧
    ∃ (F : StatsRow → Bool) (R : StatsRow → String),
      apply_changes_to_stats stats cond t f = stats.map (fun r => t.set r (F r) (R r)) := by
  rw [apply_changes_eq_map stats cond t f hU hf]
  constructor
  · rw [List.map_map]
    apply List.map_congr_left
    intro r _
    simp only [Function.comp_apply]
    exact keyOf_composeRow ..
  · refine ⟨fun r => if hasCol t stats then ((t.flag r).getD false) ||
        ((((subResults stats cond f).find? (fun s => s.1 == keyOf r)).map
          (fun s => s.2)).map (fun x => x.1)).getD false
      else ((((subResults stats cond f).find? (fun s => s.1 == keyOf r)).map
          (fun s => s.2)).map (fun x => x.1)).getD false,
      fun r => if hasCol t stats then (((t.reason r).getD "") ++ " | ") ++
        ((((subResults stats cond f).find? (fun s => s.1 == keyOf r)).map
          (fun s => s.2)).bind (fun x => x.2)).getD ""
      else ((((subResults stats cond f).find? (fun s => s.1 == keyOf r)).map
          (fun s => s.2)).bind (fun x => x.2)).getD "", ?_⟩
    apply List.map_congr_left
    intro r _
    by_cases hp : hasCol t stats = true
    · simp [composeRow, hp]
    · have hp' : hasCol t stats = false := by simpa using hp
      simp [composeRow, hp']

theorem apply_changes_frame_witness :
    (([blankRow ⟨"x", "y", "z"⟩].map keyOf).Nodup) ∧
    (((apply_changes_to_stats [blankRow ⟨"x", "y", "z"⟩]
        (fun r => r.max_vacuum_timestamp.isNone) .vacuum
        never_vacuumed_apply_legend).map keyOf = [blankRow ⟨"x", "y", "z"⟩].map keyOf) ∧
      ∃ (F : StatsRow → Bool) (R : StatsRow → String),
        apply_changes_to_stats [blankRow ⟨"x", "y", "z"⟩]
          (fun r => r.max_vacuum_timestamp.isNone) .vacuum never_vacuumed_apply_legend =
          [blankRow ⟨"x", "y", "z"⟩].map (fun r => FlagCol.vacuum.set r (F r) (R r))) :=
  ⟨by decide,
    apply_changes_frame [blankRow ⟨"x", "y", "z"⟩] _ .vacuum _ (by decide)
      (fun sub => map_keys_sublist
        (fun e => (e.1, true, some tables_not_vacuumed_legend)) (fun e => rfl) sub)⟩

theorem hasCol_append (t : FlagCol) (l1 l2 : List StatsRow) :
    hasCol t (l1 ++ l2) = (hasCol t l1 || hasCol t l2) := by
  simp [hasCol, List.any_append]

theorem hasCol_map_canonical_self (t0 : FlagCol) (pr : Bool) (L : String)
    (fi : StatsRow → Bool) (l : List StatsRow) (h : l ≠ []) :
    hasCol t0 (l.map (fun r => canonicalRow t0 pr L (fi r) r)) = true := by
  obtain ⟨x, hx⟩ := List.exists_mem_of_ne_nil l h
  rw [hasCol, List.any_eq_true]
  refine ⟨canonicalRow t0 pr L (fi x) x, List.mem_map.mpr ⟨x, hx, rfl⟩, ?_⟩
  rw [flag_canonicalRow_self]
  rfl

theorem hasCol_map_canonical_other (t t0 : FlagCol) (ht : t ≠ t0) (pr : Bool) (L : String)
    (fi : StatsRow → Bool) (l : List StatsRow) :
    hasCol t (l.map (fun r => canonicalRow t0 pr L (fi r) r)) = hasCol t l := by
  rw [hasCol, hasCol, List.any_map]
  congr 1
  funext r
  simp only [Function.comp_apply]
  rw [flag_canonicalRow_other t0 t ht]

theorem stage_ne_nil (p : HousekeepingParams) (A : List StatsRow)
    (hUA : (A.map keyOf).Nodup) (hA : A ≠ []) (n : Nat) : stage p A n ≠ [] := by
  intro h
  have hk := stage_map_keyOf p A hUA n
  rw [h] at hk
  exact hA (List.map_eq_nil_iff.mp hk.symm)

theorem stage_nil (p : HousekeepingParams) : ∀ n, stage p [] n = [] := by
  intro n
  induction n with
  | zero => rfl
  | succ n ih =>
    rw [stage, ih]
    rcases ruleAt_preserving p n with hid | ⟨t0, L, fired, hg⟩
    · rw [hid]
      rfl
    · rw [hg [] (by simp)]
      rfl

theorem stage_append (p : HousekeepingParams) (A B : List StatsRow)
    (hU : ((A ++ B).map keyOf).Nodup)
    (hUA : (A.map keyOf).Nodup) (hUB : (B.map keyOf).Nodup)
    (hA : A ≠ []) (hB : B ≠ [])
    (hfA : ∀ t : FlagCol, hasCol t A = false) (hfB : ∀ t : FlagCol, hasCol t B = false) :
    ∀ n, stage p (A ++ B) n = stage p A n ++ stage p B n ∧
      (∀ t : FlagCol, hasCol t (stage p A n) = hasCol t (stage p B n)) := by
  intro n
  induction n with
  | zero =>
    exact ⟨rfl, fun t => by
      rw [show stage p A 0 = A from rfl, show stage p B 0 = B from rfl, hfA t, hfB t]⟩
  | succ n ih =>
    obtain ⟨hst, hcol⟩ := ih
    rcases ruleAt_preserving p n with hid | ⟨t0, L, fired, hg⟩
    · rw [stage, stage, stage, hid, id_eq, id_eq, id_eq, hst]
      exact ⟨rfl, hcol⟩
    · have hgAB := hg (stage p (A ++ B) n) (stage_nodup p (A ++ B) hU n)
      have hgA := hg (stage p A n) (stage_nodup p A hUA n)
      have hgB := hg (stage p B n) (stage_nodup p B hUB n)
      rw [hst] at hgAB
      have hp : hasCol t0 (stage p A n ++ stage p B n) = hasCol t0 (stage p A n) := by
        rw [hasCol_append, ← hcol t0, Bool.or_self]
      rw [hp, List.map_append] at hgAB
      constructor
      · rw [stage, stage, stage, hst, hgAB, hgA, hgB]
        congr 1
        rw [hcol t0]
      · intro t
        rw [stage, stage, hgA, hgB]
        by_cases ht : t = t0
        · subst ht
          rw [hasCol_map_canonical_self t _ L _ _ (stage_ne_nil p A hUA hA n),
            hasCol_map_canonical_self t _ L _ _ (stage_ne_nil p B hUB hB n)]
        · rw [hasCol_map_canonical_other t t0 ht, hasCol_map_canonical_other t t0 ht]
          exact hcol t

/-- C8: for every two batches of summary rows with disjoint table
identities (jointly unique keys) and no pre-existing recommendation
columns, evaluating the concatenation of the two batches yields, row for
row, the same flags and reasons as evaluating each batch separately with
the same configuration and concatenating the two result frames. -/
theorem generate_recommendations_append (p : HousekeepingParams) (A B : List StatsRow)
    (hU : ((A ++ B).map keyOf).Nodup)
    (hfA : ∀ r ∈ A, r.rec_optimize = none ∧ r.rec_vacuum = none ∧ r.rec_misc = none)
    (hfB : ∀ r ∈ B, r.rec_optimize = none ∧ r.rec_vacuum = none ∧ r.rec_misc = none) :
    generate_recommendations p (A ++ B) =
      generate_recommendations p A ++ generate_recommendations p B := by
  have hcolA : ∀ t : FlagCol, hasCol t A = false := by
    intro t
    rw [hasCol, List.any_eq_false]
    intro r hr
    obtain ⟨h1, h2, h3⟩ := hfA r hr
    cases t <;> simp [FlagCol.flag, h1, h2, h3]
  have hcolB : ∀ t : FlagCol, hasCol t B = false := by
    intro t
    rw [hasCol, List.any_eq_false]
    intro r hr
    obtain ⟨h1, h2, h3⟩ := hfB r hr
    cases t <;> simp [FlagCol.flag, h1, h2, h3]
  by_cases hAe : A = []
  · subst hAe
    rw [List.nil_append]
    rw [show generate_recommendations p ([] : List StatsRow) = [] from stage_nil p 9]
    rw [List.nil_append]
  · by_cases hBe : B = []
    · subst hBe
      rw [List.append_nil]
      rw [show generate_recommendations p ([] : List StatsRow) = [] from stage_nil p 9]
      rw [List.append_nil]
    · rw [List.map_append] at hU
      obtain ⟨hUA, hUB, _⟩ := List.nodup_append.mp hU
      rw [← List.map_append] at hU
      exact (stage_append p A B hU hUA hUB hAe hBe hcolA hcolB 9).1

theorem generate_recommendations_append_witness :
    ((([blankRow ⟨"a", "d", "t"⟩] ++ [blankRow ⟨"b", "d", "t"⟩]).map keyOf).Nodup ∧
      (∀ r ∈ [blankRow ⟨"a", "d", "t"⟩],
        r.rec_optimize = none ∧ r.rec_vacuum = none ∧ r.rec_misc = none) ∧
      (∀ r ∈ [blankRow ⟨"b", "d", "t"⟩],
        r.rec_optimize = none ∧ r.rec_vacuum = none ∧ r.rec_misc = none)) ∧
    generate_recommendations { now := 0 }
        ([blankRow ⟨"a", "d", "t"⟩] ++ [blankRow ⟨"b", "d", "t"⟩]) =
      generate_recommendations { now := 0 } [blankRow ⟨"a", "d", "t"⟩] ++
        generate_recommendations { now := 0 } [blankRow ⟨"b", "d", "t"⟩] :=
  ⟨⟨by decide, by decide, by decide⟩,
    generate_recommendations_append { now := 0 } _ _ (by decide) (by decide) (by decide)⟩

/-! ## Claims about the scanner -/

/-- C7: if a table's history, filtered to the operations OPTIMIZE and
VACUUM END, contains no events, `scan` returns a single summary row whose
detail fields (identity, number_of_files, bytes) are populated and whose
history fields (max and 2nd optimize timestamps, max and 2nd vacuum
timestamps, min/p50/max file size, z-order clause) are all null, as are
the error and recommendation columns. -/
theorem scan_no_relevant_history (ti : TableInfo) (d : DetailRow) (h : List HistoryEvent)
    (hemp : h.filter relevantOperation = []) :
    scan ti (.ok [d]) (.ok h) =
      [{ catalog := d.catalog, database := d.database, tableName := d.tableName,
         number_of_files := some d.number_of_files, bytes := some d.bytes }] := by
  have hoo : operation_order h = [] := by
    rw [operation_order, hemp]
    rfl
  have h1 : scan ti (.ok [d]) (.ok h) = process_describe_history [d] h := rfl
  rw [h1]
  simp only [process_describe_history, hoo]
  rfl

theorem scan_no_relevant_history_witness :
    (([(⟨"c", "d", "t", "WRITE", 5, none, none, none, none⟩ : HistoryEvent)].filter
      relevantOperation) = []) ∧
    scan ⟨some "c", "d", "t"⟩ (.ok [⟨"c", "d", "t", 10, 4096⟩])
        (.ok [⟨"c", "d", "t", "WRITE", 5, none, none, none, none⟩]) =
      [{ catalog := "c", database := "d", tableName := "t",
         number_of_files := some 10, bytes := some 4096 }] :=
  ⟨by decide,
    scan_no_relevant_history ⟨some "c", "d", "t"⟩ ⟨"c", "d", "t", 10, 4096⟩
      [⟨"c", "d", "t", "WRITE", 5, none, none, none, none⟩] (by decide)⟩

/-- C10: on the error path of `scan` the `catalog` field of the returned
error record is never null: a `None` catalog is replaced by the empty
string (the `table_info.catalog or ""` guard), while the `database` and
`tableName` fields and the exception message are passed through unchanged;
no other column is populated. -/
theorem scan_error_catalog_guard (c : Option String) (sc tb msg : String)
    (history : Except String (List HistoryEvent)) :
    scan ⟨c, sc, tb⟩ (.error msg) history =
      [{ catalog := c.getD "", database := sc, tableName := tb, error := some msg }] ∧
    scan ⟨none, sc, tb⟩ (.error msg) history =
      [{ catalog := "", database := sc, tableName := tb, error := some msg }] :=
  ⟨rfl, rfl⟩

theorem samePart_symm {a b : HistoryEvent} (h : samePart a b = true) : samePart b a = true := by
  simp only [samePart, Bool.and_eq_true, beq_iff_eq] at h ⊢
  obtain ⟨⟨⟨h1, h2⟩, h3⟩, h4⟩ := h
  exact ⟨⟨⟨h1.symm, h2.symm⟩, h3.symm⟩, h4.symm⟩

theorem samePart_trans {a b c : HistoryEvent} (h1 : samePart a b = true)
    (h2 : samePart b c = true) : samePart a c = true := by
  simp only [samePart, Bool.and_eq_true, beq_iff_eq] at h1 h2 ⊢
  obtain ⟨⟨⟨a1, a2⟩, a3⟩, a4⟩ := h1
  obtain ⟨⟨⟨b1, b2⟩, b3⟩, b4⟩ := h2
  exact ⟨⟨⟨a1.trans b1, a2.trans b2⟩, a3.trans b3⟩, a4.trans b4⟩

theorem precedes_irrefl (x : Nat × HistoryEvent) : precedes x x = false := by
  simp [precedes]

theorem precedes_trans {a b c : Nat × HistoryEvent} (h1 : precedes a b = true)
    (h2 : precedes b c = true) : precedes a c = true := by
  simp only [precedes, Bool.or_eq_true, Bool.and_eq_true, decide_eq_true_eq,
    beq_iff_eq] at h1 h2 ⊢
  rcases h1 with h1 | ⟨h1e, h1i⟩ <;> rcases h2 with h2 | ⟨h2e, h2i⟩
  · exact Or.inl (lt_trans h2 h1)
  · exact Or.inl (h2e ▸ h1)
  · exact Or.inl (by omega)
  · exact Or.inr ⟨h1e.trans h2e, lt_trans h1i h2i⟩

theorem precedes_total {a b : Nat × HistoryEvent} (h : a.1 ≠ b.1) :
    precedes a b = true ∨ precedes b a = true := by
  simp only [precedes, Bool.or_eq_true, Bool.and_eq_true, decide_eq_true_eq, beq_iff_eq]
  rcases lt_trichotomy a.2.timestamp b.2.timestamp with hlt | heq | hgt
  · exact Or.inr (Or.inl hlt)
  · rcases Nat.lt_or_ge a.1 b.1 with hi | hi
    · exact Or.inl (Or.inr ⟨heq, hi⟩)
    · exact Or.inr (Or.inr ⟨heq.symm, by omega⟩)
  · exact Or.inl (Or.inl hgt)

theorem rowNumberOf_lt (fe : List (Nat × HistoryEvent)) (x y : Nat × HistoryEvent)
    (hx : x ∈ fe) (hsp : samePart x.2 y.2 = true) (hxy : precedes x y = true) :
    rowNumberOf fe x < rowNumberOf fe y := by
  rw [rowNumberOf, rowNumberOf]
  apply Nat.add_lt_add_left
  apply length_filter_lt fe ?_ x hx ?_ ?_
  · intro q _ hq
    rw [Bool.and_eq_true] at hq ⊢
    exact ⟨samePart_trans hq.1 hsp, precedes_trans hq.2 hxy⟩
  · rw [Bool.and_eq_true]
    exact ⟨hsp, hxy⟩
  · rw [precedes_irrefl, Bool.and_false]

theorem rankedRows_subset (history : List HistoryEvent) (op : String) (k : Nat) :
    ∀ e ∈ rankedRows history op k, e ∈ history.filter relevantOperation := by
  intro e he
  rw [rankedRows] at he
  obtain ⟨pq, hp, hpe⟩ := List.mem_map.mp he
  have hp' := (List.mem_filter.mp hp).1
  rw [operation_order] at hp'
  obtain ⟨q, hq, hqe⟩ := List.mem_map.mp hp'
  have h2 := (mem_enumFrom_facts (history.filter relevantOperation) 0 q hq).2
  rw [← hpe, ← hqe]
  exact h2

theorem rankedRows_length_le_one (history : List HistoryEvent) (kk : TableKey)
    (hkeys : ∀ e ∈ history, eventKey e = kk) (op : String) (k : Nat) :
    (rankedRows history op k).length ≤ 1 := by
  rw [rankedRows, List.length_map, operation_order]
  rw [filter_of_map, List.length_map]
  apply length_filter_le_one _ (enumFrom_nodup _ 0)
  intro x hx y hy hPx hPy
  simp only [Bool.and_eq_true, beq_iff_eq] at hPx hPy
  obtain ⟨hxop, hxrk⟩ := hPx
  obtain ⟨hyop, hyrk⟩ := hPy
  by_contra hne
  have hxf := (mem_enumFrom_facts (history.filter relevantOperation) 0 x hx).2
  have hyf := (mem_enumFrom_facts (history.filter relevantOperation) 0 y hy).2
  have hxk : eventKey x.2 = kk := hkeys x.2 (List.mem_filter.mp hxf).1
  have hyk : eventKey y.2 = kk := hkeys y.2 (List.mem_filter.mp hyf).1
  have hsp : samePart x.2 y.2 = true := by
    have hk : eventKey x.2 = eventKey y.2 := by rw [hxk, hyk]
    rw [eventKey, eventKey] at hk
    simp only [samePart, Bool.and_eq_true, beq_iff_eq]
    refine ⟨⟨⟨?_, ?_⟩, ?_⟩, ?_⟩
    · exact congrArg TableKey.catalog hk
    · exact congrArg TableKey.database hk
    · exact congrArg TableKey.tableName hk
    · rw [hxop, hyop]
  have hfst : x.1 ≠ y.1 := by
    intro h
    exact hne (enumFrom_fst_inj _ 0 x y hx hy h)
  rcases precedes_total hfst with hp | hp
  · have hlt : rowNumberOf ((history.filter relevantOperation).enum) x <
        rowNumberOf ((history.filter relevantOperation).enum) y :=
      rowNumberOf_lt _ x y hx hsp hp
    rw [hxrk, hyrk] at hlt
    exact lt_irrefl k hlt
  · have hlt : rowNumberOf ((history.filter relevantOperation).enum) y <
        rowNumberOf ((history.filter relevantOperation).enum) x :=
      rowNumberOf_lt _ y x hy (samePart_symm hsp) hp
    rw [hxrk, hyrk] at hlt
    exact lt_irrefl k hlt

theorem mergeEvents_single (r : StatsRow) (es : List HistoryEvent)
    (upd : StatsRow → HistoryEvent → StatsRow)
    (hk : ∀ e ∈ es, eventKey e = keyOf r) (hlen : es.length ≤ 1)
    (hupd : ∀ r' e, keyOf (upd r' e) = keyOf r') :
    ∃ r', mergeEvents [r] es upd = [r'] ∧ keyOf r' = keyOf r := by
  rcases es with _ | ⟨e, _ | ⟨e2, tl⟩⟩
  · exact ⟨r, rfl, rfl⟩
  · have hke : eventKey e = keyOf r := hk e (List.mem_cons_self e [])
    have hb : (eventKey e == keyOf r) = true := beq_iff_eq.mpr hke
    refine ⟨upd r e, ?_, hupd r e⟩
    rw [mergeEvents]
    simp [hb]
  · exfalso
    simp at hlen

theorem process_single (d : DetailRow) (evs : List HistoryEvent)
    (hkeys : ∀ e ∈ evs, eventKey e = detailKey d) :
    (process_describe_history [d] evs).length = 1 := by
  have hmono : ∀ (out : List StatsRow) (op : String) (k : Nat)
      (upd : StatsRow → HistoryEvent → StatsRow),
      (∀ r' e, keyOf (upd r' e) = keyOf r') →
      (∃ r', out = [r'] ∧ keyOf r' = detailKey d) →
      (∃ r'', mergeEvents out (rankedRows evs op k) upd = [r''] ∧
        keyOf r'' = detailKey d) := by
    rintro out op k upd hupd ⟨r', rfl, hkr⟩
    obtain ⟨r'', h1, h2⟩ := mergeEvents_single r' (rankedRows evs op k) upd
      (fun e he => by
        rw [hkr]
        exact hkeys e (List.mem_filter.mp (rankedRows_subset evs op k e he)).1)
      (rankedRows_length_le_one evs (detailKey d) hkeys op k) hupd
    exact ⟨r'', h1, by rw [h2, hkr]⟩
  by_cases hoo : (operation_order evs).isEmpty = true
  · have heq : process_describe_history [d] evs = [d].map toStatsRow := by
      simp only [process_describe_history, hoo, if_true]
    rw [heq]
    rfl
  · have heq : process_describe_history [d] evs =
        mergeEvents (mergeEvents (mergeEvents (mergeEvents (mergeEvents [toStatsRow d] (rankedRows evs "OPTIMIZE" 1) (fun r e => { r with max_optimize_timestamp := some e.timestamp })) (rankedRows evs "OPTIMIZE" 2) (fun r e => { r with snd_optimize_timestamp := some e.timestamp })) (rankedRows evs "VACUUM END" 1) (fun r e => { r with max_vacuum_timestamp := some e.timestamp })) (rankedRows evs "VACUUM END" 2) (fun r e => { r with snd_vacuum_timestamp := some e.timestamp })) (rankedRows evs "OPTIMIZE" 1) (fun r e => { r with min_file_size := e.min_file_size, p50_file_size := e.p50_file_size, max_file_size := e.max_file_size, z_order_by := e.z_order_by }) := by
      simp only [process_describe_history]
      rw [if_neg hoo]
      rfl
    rw [heq]
    obtain ⟨r5, h5, _⟩ :=
      hmono _ "OPTIMIZE" 1
        (fun r e => { r with min_file_size := e.min_file_size, p50_file_size := e.p50_file_size, max_file_size := e.max_file_size, z_order_by := e.z_order_by })
        (fun r' e => rfl)
        (hmono _ "VACUUM END" 2
          (fun r e => { r with snd_vacuum_timestamp := some e.timestamp }) (fun r' e => rfl)
          (hmono _ "VACUUM END" 1
            (fun r e => { r with max_vacuum_timestamp := some e.timestamp }) (fun r' e => rfl)
            (hmono _ "OPTIMIZE" 2
              (fun r e => { r with snd_optimize_timestamp := some e.timestamp })
              (fun r' e => rfl)
              (hmono _ "OPTIMIZE" 1
                (fun r e => { r with max_optimize_timestamp := some e.timestamp })
                (fun r' e => rfl)
                ⟨toStatsRow d, rfl, rfl⟩))))
    rw [h5]
    rfl

/-- C1: for every table identifier, `scan` returns exactly one record
(under the collaborator contract: the detail fetch yields the table's
single detail row and every history event carries that table's identity)
and never propagates an exception: any exception raised anywhere inside
the single failure boundary - detail fetch, history fetch, or the summary
fold composed after them in `scan_attempt` - yields an error record
carrying only the identity fields (catalog, database, tableName) and the
exception message as the error field, with no summary fields populated. -/
theorem scan_single_record_error_boundary (ti : TableInfo) (d : DetailRow)
    (detail : Except String (List DetailRow)) (history : Except String (List HistoryEvent))
    (hd : ∀ l, detail = .ok l → l = [d])
    (hh : ∀ l, history = .ok l → ∀ e ∈ l, eventKey e = detailKey d) :
    (scan ti detail history).length = 1 ∧
    (∀ msg, scan_attempt detail history = .error msg →
      scan ti detail history = [{ catalog := ti.catalog.getD "", database := ti.schema, tableName := ti.table, error := some msg }]) := by
  constructor
  · cases detail with
    | error msg =>
      have h1 : scan ti (.error msg) history = [errorRecord ti msg] := rfl
      rw [h1]
      rfl
    | ok l =>
      have hl := hd l rfl
      subst hl
      cases history with
      | error msg =>
        have h1 : scan ti (.ok [d]) (.error msg) = [errorRecord ti msg] := rfl
        rw [h1]
        rfl
      | ok evs =>
        have h1 : scan ti (.ok [d]) (.ok evs) = process_describe_history [d] evs := rfl
        rw [h1]
        exact process_single d evs (hh evs rfl)
  · intro msg hmsg
    simp only [scan, hmsg]
    rfl

theorem scan_single_record_error_boundary_witness :
    ((∀ l, (Except.ok [(⟨"c", "d", "t", 10, 4096⟩ : DetailRow)] :
        Except String (List DetailRow)) = .ok l → l = [⟨"c", "d", "t", 10, 4096⟩]) ∧
      (∀ l, (Except.ok [(⟨"c", "d", "t", "OPTIMIZE", 7, none, none, none, none⟩ :
          HistoryEvent)] : Except String (List HistoryEvent)) = .ok l →
        ∀ e ∈ l, eventKey e = detailKey ⟨"c", "d", "t", 10, 4096⟩)) ∧
    ((scan ⟨none, "d", "t"⟩
        (.ok [(⟨"c", "d", "t", 10, 4096⟩ : DetailRow)])
        (.ok [(⟨"c", "d", "t", "OPTIMIZE", 7, none, none, none, none⟩ :
          HistoryEvent)])).length = 1 ∧
      (∀ msg, scan_attempt
          (Except.ok [(⟨"c", "d", "t", 10, 4096⟩ : DetailRow)])
          (Except.ok [(⟨"c", "d", "t", "OPTIMIZE", 7, none, none, none, none⟩ :
            HistoryEvent)]) = .error msg →
        scan ⟨none, "d", "t"⟩
          (.ok [(⟨"c", "d", "t", 10, 4096⟩ : DetailRow)])
          (.ok [(⟨"c", "d", "t", "OPTIMIZE", 7, none, none, none, none⟩ :
            HistoryEvent)]) =
          [{ catalog := (none : Option String).getD "", database := "d",
             tableName := "t", error := some msg }])) :=
  ⟨⟨fun l hl => (Except.ok.inj hl).symm,
    fun l hl e he => by
      rw [← Except.ok.inj hl] at he
      rw [List.mem_singleton.mp he]
      rfl⟩,
    scan_single_record_error_boundary ⟨none, "d", "t"⟩ ⟨"c", "d", "t", 10, 4096⟩ _ _
      (fun l hl => (Except.ok.inj hl).symm)
      (fun l hl e he => by
        rw [← Except.ok.inj hl] at he
        rw [List.mem_singleton.mp he]
        rfl)⟩

theorem enumFrom_filter_length {α : Type} (P : α → Bool) (l : List α) (n : Nat) :
    ((List.enumFrom n l).filter (fun q => P q.2)).length = (l.filter P).length := by
  have h := congrArg List.length (enumFrom_filter_map_snd P l n)
  rw [List.length_map] at h
  exact h

theorem rowNumberOf_eq_strictRank (history : List HistoryEvent)
    (hN : ((history.filter relevantOperation).map
      (fun e => (e.catalog, e.database, e.tableName, e.operation, e.timestamp))).Nodup)
    (q : Nat × HistoryEvent) (hq : q ∈ (history.filter relevantOperation).enum) :
    rowNumberOf ((history.filter relevantOperation).enum) q =
      strictRank (history.filter relevantOperation) q.2 := by
  have hfN : (history.filter relevantOperation).Nodup := List.Nodup.of_map _ hN
  rw [rowNumberOf, strictRank]
  congr 1
  have hstep : ∀ p ∈ (history.filter relevantOperation).enum,
      (samePart p.2 q.2 && precedes p q) =
      (samePart p.2 q.2 && decide (q.2.timestamp < p.2.timestamp)) := by
    intro p hp
    by_cases hsp : samePart p.2 q.2 = true
    · rw [hsp, Bool.true_and, Bool.true_and, precedes]
      by_cases hts : q.2.timestamp < p.2.timestamp
      · rw [decide_eq_true hts]
        simp
      · have h1 : decide (q.2.timestamp < p.2.timestamp) = false := by
          simpa using hts
        rw [h1, Bool.false_or]
        by_cases heq : p.2.timestamp = q.2.timestamp
        · have hT : (fun e : HistoryEvent =>
              (e.catalog, e.database, e.tableName, e.operation, e.timestamp)) p.2 =
              (fun e : HistoryEvent =>
              (e.catalog, e.database, e.tableName, e.operation, e.timestamp)) q.2 := by
            simp only [samePart, Bool.and_eq_true, beq_iff_eq] at hsp
            obtain ⟨⟨⟨hc, hdb⟩, ht⟩, ho⟩ := hsp
            simp [hc, hdb, ht, ho, heq]
          have hsnd : p.2 = q.2 :=
            List.inj_on_of_nodup_map hN
              (mem_enumFrom_facts _ 0 p hp).2 (mem_enumFrom_facts _ 0 q hq).2 hT
          have hpq : p = q := enumFrom_snd_inj _ hfN 0 p q hp hq hsnd
          rw [hpq]
          simp [precedes_irrefl]
        · have h2 : (p.2.timestamp == q.2.timestamp) = false := by
            simpa using heq
          rw [h2, Bool.false_and]
    · have hsp' : samePart p.2 q.2 = false := by simpa using hsp
      rw [hsp', Bool.false_and, Bool.false_and]
  rw [List.filter_congr hstep]
  exact enumFrom_filter_length
    (fun f => samePart f q.2 && decide (q.2.timestamp < f.timestamp))
    (history.filter relevantOperation) 0

theorem denseRankOf_eq_strictRank (history : List HistoryEvent)
    (hN : ((history.filter relevantOperation).map
      (fun e => (e.catalog, e.database, e.tableName, e.operation, e.timestamp))).Nodup)
    (e : HistoryEvent) :
    denseRankOf (history.filter relevantOperation) e =
      strictRank (history.filter relevantOperation) e := by
  have hfN : (history.filter relevantOperation).Nodup := List.Nodup.of_map _ hN
  rw [denseRankOf, strictRank]
  congr 1
  have hnodup : (((history.filter relevantOperation).filter
      (fun f => samePart f e && decide (e.timestamp < f.timestamp))).map
      (fun f => f.timestamp)).Nodup := by
    apply List.Nodup.map_on
    · intro x hx y hy hts
      have hxmem := (List.mem_filter.mp hx).1
      have hymem := (List.mem_filter.mp hy).1
      have hxc := (List.mem_filter.mp hx).2
      have hyc := (List.mem_filter.mp hy).2
      rw [Bool.and_eq_true] at hxc hyc
      have hT : (fun f : HistoryEvent =>
          (f.catalog, f.database, f.tableName, f.operation, f.timestamp)) x =
          (fun f : HistoryEvent =>
          (f.catalog, f.database, f.tableName, f.operation, f.timestamp)) y := by
        have hxy : samePart x y = true := samePart_trans hxc.1 (samePart_symm hyc.1)
        simp only [samePart, Bool.and_eq_true, beq_iff_eq] at hxy
        obtain ⟨⟨⟨hc, hdb⟩, ht⟩, ho⟩ := hxy
        simp [hc, hdb, ht, ho, hts]
      exact List.inj_on_of_nodup_map hN hxmem hymem hT
    · exact List.Nodup.filter _ hfN
  rw [List.dedup_eq_self.mpr hnodup, List.length_map]

/-- C6 counterexample: on a history holding two OPTIMIZE events for the
same table with equal timestamps, the code's `row_number` extraction
(rank-1 rows feeding the max-timestamp column) differs from the dense-rank
extraction the claim describes: `row_number` breaks the tie and selects one
event, dense rank assigns rank 1 to both. -/
theorem rank_extraction_not_dense_rank :
    rankedRows [tieEventA, tieEventB] "OPTIMIZE" 1 ≠
      denseRankRows [tieEventA, tieEventB] "OPTIMIZE" 1 := by
  decide

/-- C6 amended: the rows extracted into the max- and 2nd-timestamp columns
are exactly those whose `row_number` - a sequential rank over
(catalog, database, tableName, operation) partitions ordered by timestamp
descending, ties broken arbitrarily - is 1 and 2 respectively; on every
history whose events have pairwise distinct (partition, timestamp)
combinations this extraction coincides with the dense-rank description of
the claim, for every operation and every rank. -/
theorem rankedRows_eq_denseRankRows (history : List HistoryEvent)
    (hN : ((history.filter relevantOperation).map
      (fun e => (e.catalog, e.database, e.tableName, e.operation, e.timestamp))).Nodup)
    (op : String) (k : Nat) :
    rankedRows history op k = denseRankRows history op k := by
  have h1 : rankedRows history op k =
      ((history.filter relevantOperation).enum.filter
        (fun q => q.2.operation == op &&
          rowNumberOf ((history.filter relevantOperation).enum) q == k)).map
        (fun q => q.2) := by
    simp only [rankedRows, operation_order]
    rw [filter_of_map, List.map_map]
    rfl
  have hcong : ∀ q ∈ (history.filter relevantOperation).enum,
      (q.2.operation == op &&
        rowNumberOf ((history.filter relevantOperation).enum) q == k) =
      (q.2.operation == op &&
        strictRank (history.filter relevantOperation) q.2 == k) := by
    intro q hq
    rw [rowNumberOf_eq_strictRank history hN q hq]
  have h3 : ((history.filter relevantOperation).enum.filter
        (fun q => q.2.operation == op &&
          strictRank (history.filter relevantOperation) q.2 == k)).map (fun q => q.2) =
      (history.filter relevantOperation).filter
        (fun e => e.operation == op &&
          strictRank (history.filter relevantOperation) e == k) :=
    enumFrom_filter_map_snd
      (fun e => e.operation == op && strictRank (history.filter relevantOperation) e == k)
      (history.filter relevantOperation) 0
  have h4 : denseRankRows history op k =
      (history.filter relevantOperation).filter
        (fun e => e.operation == op &&
          strictRank (history.filter relevantOperation) e == k) := by
    rw [denseRankRows]
    apply List.filter_congr
    intro e _
    rw [denseRankOf_eq_strictRank history hN e]
  rw [h1, List.filter_congr hcong, h3, h4]

theorem rankedRows_eq_denseRankRows_witness :
    ((([tieEventA, { tieEventA with timestamp := 50 }].filter relevantOperation).map
      (fun e => (e.catalog, e.database, e.tableName, e.operation, e.timestamp))).Nodup) ∧
    (rankedRows [tieEventA, { tieEventA with timestamp := 50 }] "OPTIMIZE" 1 =
      denseRankRows [tieEventA, { tieEventA with timestamp := 50 }] "OPTIMIZE" 1) ∧
    (rankedRows [tieEventA, { tieEventA with timestamp := 50 }] "OPTIMIZE" 2 =
      denseRankRows [tieEventA, { tieEventA with timestamp := 50 }] "OPTIMIZE" 2) :=
  ⟨by decide,
    rankedRows_eq_denseRankRows [tieEventA, { tieEventA with timestamp := 50 }]
      (by decide) "OPTIMIZE" 1,
    rankedRows_eq_denseRankRows [tieEventA, { tieEventA with timestamp := 50 }]
      (by decide) "OPTIMIZE" 2⟩
